import Mathlib

/-!
Shallow embedding of the cephalopod ledger core (`src/model.rs`).

Money (`rust_decimal::Decimal`) is modelled as `ℚ`: the spec treats money as
an exact decimal with addition, subtraction and ordered comparison, and
declares overflow out of scope.  `HashMap` is modelled as a function into
`Option`; client ids (`u16`) and transaction ids (`u32`) are modelled as `ℕ`
since only equality of ids is ever used.  A Rust method
`fn f(&mut self, ...) -> Result<(), E>` becomes a Lean function returning
`Option E × State`: the first component is `none` on `Ok(())`, and the second
component is the (possibly partially mutated) state, which matters because
`apply_deposit` creates the client's account entry before validating the
amount.
-/

namespace Cephalopod

abbrev Decimal := ℚ

deriving instance DecidableEq for Except

inductive TransactionType where
  | deposit
  | withdrawal
  | dispute
  | resolve
  | chargeback
  deriving DecidableEq, Repr

structure Transaction where
  tpe : TransactionType
  client : ℕ
  tx : ℕ
  amount : Option Decimal
  deriving DecidableEq, Repr

inductive TransactionState where
  | withdrawn
  | deposited
  | disputed
  | resolved
  | chargebacked
  deriving DecidableEq, Repr

inductive AccountError where
  | accountLocked
  | notEnoughFunds (available required : Decimal)
  | negativeAmount (amount : Decimal)
  deriving DecidableEq, Repr

inductive TransactionError where
  | accountLocked (client : ℕ)
  | amountNotProvided
  | negativeAmountProvided (amount : Decimal)
  | unknownAccount (client : ℕ)
  | notEnoughFunds (available required : Decimal)
  | transactionNotFound (tx : ℕ)
  | transactionInvalidState (state : TransactionState)
  | transactionClientMismatch (tx : ℕ) (client : ℕ)
  deriving DecidableEq, Repr

inductive IntegrityError where
  | stateMissingForTransaction (tx : ℕ)
  | amountMissingForTransaction (tx : ℕ)
  | accountMissingForTransaction (client : ℕ)
  | fundsNotLocked (available required : Decimal)
  | unexpectedAccountError (error : AccountError)
  deriving DecidableEq, Repr

inductive CephalopodError where
  | transactionError (transaction : Transaction) (error : TransactionError)
  | integrityError (transaction : Transaction) (error : IntegrityError)
  deriving DecidableEq, Repr

/-- `Account::new`. -/
structure Account where
  available : Decimal
  held : Decimal
  locked : Bool
  deriving DecidableEq, Repr

def Account.new : Account := { available := 0, held := 0, locked := false }

/-- `Account::deposit` (which begins with `check_lock`). -/
def Account.deposit (a : Account) (amount : Decimal) : Except AccountError Account :=
  if a.locked then .error .accountLocked
  else if amount < 0 then .error (.negativeAmount amount)
  else .ok { a with available := a.available + amount }

/-- `Account::withdraw`. -/
def Account.withdraw (a : Account) (amount : Decimal) : Except AccountError Account :=
  if a.locked then .error .accountLocked
  else if amount < 0 then .error (.negativeAmount amount)
  else if a.available < amount then .error (.notEnoughFunds a.available amount)
  else .ok { a with available := a.available - amount }

/-- `Account::lock` (funds lock used by Dispute). -/
def Account.lock (a : Account) (amount : Decimal) : Except AccountError Account :=
  if a.locked then .error .accountLocked
  else if a.available < amount then .error (.notEnoughFunds a.available amount)
  else .ok { a with available := a.available - amount, held := a.held + amount }

/-- `Account::release` (used by Resolve).  Note the source reports
`available: self.available` in the `NotEnoughFunds` error, not the held
balance. -/
def Account.release (a : Account) (amount : Decimal) : Except AccountError Account :=
  if a.locked then .error .accountLocked
  else if a.held < amount then .error (.notEnoughFunds a.available amount)
  else .ok { a with held := a.held - amount, available := a.available + amount }

/-- `Account::chargeback`. -/
def Account.chargeback (a : Account) (amount : Decimal) : Except AccountError Account :=
  if a.locked then .error .accountLocked
  else if a.held < amount then .error (.notEnoughFunds a.available amount)
  else .ok { a with held := a.held - amount, locked := true }

/-- `HashMap::insert`, for maps modelled as functions into `Option`. -/
def mapInsert {α : Type} (m : ℕ → Option α) (k : ℕ) (v : α) : ℕ → Option α :=
  fun j => if j = k then some v else m j

/-- The ledger `State`: accounts by client id, original deposit/withdrawal
records by transaction id, and per-transaction lifecycle state. -/
structure State where
  accounts : ℕ → Option Account
  transaction_history : ℕ → Option Transaction
  transaction_state : ℕ → Option TransactionState

def State.new : State :=
  { accounts := fun _ => none
    transaction_history := fun _ => none
    transaction_state := fun _ => none }

/-- Error mapping of the closure in `apply_deposit`; the `NotEnoughFunds`
case is the defensive `_ => IntegrityError` arm of the source. -/
def depositErrMap (t : Transaction) : AccountError → CephalopodError
  | .accountLocked => .transactionError t (.accountLocked t.client)
  | .negativeAmount q => .transactionError t (.negativeAmountProvided q)
  | .notEnoughFunds av rq =>
      .integrityError t (.unexpectedAccountError (.notEnoughFunds av rq))

/-- Error mapping of the closure in `apply_withdrawal` (all three account
errors become user-level transaction errors). -/
def withdrawErrMap (t : Transaction) : AccountError → CephalopodError
  | .accountLocked => .transactionError t (.accountLocked t.client)
  | .negativeAmount q => .transactionError t (.negativeAmountProvided q)
  | .notEnoughFunds av rq => .transactionError t (.notEnoughFunds av rq)

/-- Error mapping of the closure in `apply_dispute`; `NegativeAmount` is the
defensive `_ => IntegrityError` arm. -/
def disputeErrMap (t : Transaction) : AccountError → CephalopodError
  | .accountLocked => .transactionError t (.accountLocked t.client)
  | .notEnoughFunds av rq => .transactionError t (.notEnoughFunds av rq)
  | .negativeAmount q =>
      .integrityError t (.unexpectedAccountError (.negativeAmount q))

/-- Error mapping of the closure in `apply_resolve`: a `NotEnoughFunds` from
`release` escalates to the `FundsNotLocked` integrity error. -/
def resolveErrMap (t : Transaction) : AccountError → CephalopodError
  | .accountLocked => .transactionError t (.accountLocked t.client)
  | .notEnoughFunds av rq => .integrityError t (.fundsNotLocked av rq)
  | .negativeAmount q =>
      .integrityError t (.unexpectedAccountError (.negativeAmount q))

/-- Error mapping of the closure in `apply_chargeback` (same escalation
policy as resolve). -/
def chargebackErrMap (t : Transaction) : AccountError → CephalopodError
  | .accountLocked => .transactionError t (.accountLocked t.client)
  | .notEnoughFunds av rq => .integrityError t (.fundsNotLocked av rq)
  | .negativeAmount q =>
      .integrityError t (.unexpectedAccountError (.negativeAmount q))

/-- `State::apply_deposit`.  The account entry is created (`entry(..).or_insert_with`)
before the amount is validated, so the entry survives a failed deposit. -/
def State.apply_deposit (s : State) (t : Transaction) : Option CephalopodError × State :=
  let acc := (s.accounts t.client).getD Account.new
  let s1 : State := { s with accounts := mapInsert s.accounts t.client acc }
  match t.amount with
  | none => (some (.transactionError t .amountNotProvided), s1)
  | some amount =>
    match acc.deposit amount with
    | .error e => (some (depositErrMap t e), s1)
    | .ok acc2 =>
      (none,
        { accounts := mapInsert s.accounts t.client acc2
          transaction_history := mapInsert s.transaction_history t.tx t
          transaction_state := mapInsert s.transaction_state t.tx .deposited })

/-- `State::apply_withdrawal`. -/
def State.apply_withdrawal (s : State) (t : Transaction) : Option CephalopodError × State :=
  match s.accounts t.client with
  | none => (some (.transactionError t (.unknownAccount t.client)), s)
  | some acc =>
    match t.amount with
    | none => (some (.transactionError t .amountNotProvided), s)
    | some amount =>
      match acc.withdraw amount with
      | .error e => (some (withdrawErrMap t e), s)
      | .ok acc2 =>
        (none,
          { accounts := mapInsert s.accounts t.client acc2
            transaction_history := mapInsert s.transaction_history t.tx t
            transaction_state := mapInsert s.transaction_state t.tx .withdrawn })

/-- `State::apply_dispute`, with the source's validation order: history
lookup, lifecycle-state lookup (`get_mut_state`), `assert_state Deposited`,
`assert_client_match`, account lookup, `get_amount`, then `Account::lock`. -/
def State.apply_dispute (s : State) (t : Transaction) : Option CephalopodError × State :=
  match s.transaction_history t.tx with
  | none => (some (.transactionError t (.transactionNotFound t.tx)), s)
  | some dtx =>
    match s.transaction_state t.tx with
    | none => (some (.integrityError t (.stateMissingForTransaction t.tx)), s)
    | some st =>
      if st ≠ .deposited then
        (some (.transactionError t (.transactionInvalidState st)), s)
      else if t.client ≠ dtx.client then
        (some (.transactionError t (.transactionClientMismatch t.tx t.client)), s)
      else
        match s.accounts t.client with
        | none => (some (.integrityError t (.accountMissingForTransaction t.client)), s)
        | some acc =>
          match dtx.amount with
          | none => (some (.integrityError t (.amountMissingForTransaction dtx.tx)), s)
          | some q =>
            match acc.lock q with
            | .error e => (some (disputeErrMap t e), s)
            | .ok acc2 =>
              (none,
                { s with
                    accounts := mapInsert s.accounts t.client acc2
                    transaction_state := mapInsert s.transaction_state t.tx .disputed })

/-- `State::apply_resolve`, same validation order as dispute but expecting
lifecycle state `Disputed` and calling `Account::release`. -/
def State.apply_resolve (s : State) (t : Transaction) : Option CephalopodError × State :=
  match s.transaction_history t.tx with
  | none => (some (.transactionError t (.transactionNotFound t.tx)), s)
  | some rtx =>
    match s.transaction_state t.tx with
    | none => (some (.integrityError t (.stateMissingForTransaction t.tx)), s)
    | some st =>
      if st ≠ .disputed then
        (some (.transactionError t (.transactionInvalidState st)), s)
      else if t.client ≠ rtx.client then
        (some (.transactionError t (.transactionClientMismatch t.tx t.client)), s)
      else
        match s.accounts t.client with
        | none => (some (.integrityError t (.accountMissingForTransaction t.client)), s)
        | some acc =>
          match rtx.amount with
          | none => (some (.integrityError t (.amountMissingForTransaction rtx.tx)), s)
          | some q =>
            match acc.release q with
            | .error e => (some (resolveErrMap t e), s)
            | .ok acc2 =>
              (none,
                { s with
                    accounts := mapInsert s.accounts t.client acc2
                    transaction_state := mapInsert s.transaction_state t.tx .resolved })

/-- `State::apply_chargeback`, same validation order as resolve, calling
`Account::chargeback`. -/
def State.apply_chargeback (s : State) (t : Transaction) : Option CephalopodError × State :=
  match s.transaction_history t.tx with
  | none => (some (.transactionError t (.transactionNotFound t.tx)), s)
  | some ctx =>
    match s.transaction_state t.tx with
    | none => (some (.integrityError t (.stateMissingForTransaction t.tx)), s)
    | some st =>
      if st ≠ .disputed then
        (some (.transactionError t (.transactionInvalidState st)), s)
      else if t.client ≠ ctx.client then
        (some (.transactionError t (.transactionClientMismatch t.tx t.client)), s)
      else
        match s.accounts t.client with
        | none => (some (.integrityError t (.accountMissingForTransaction t.client)), s)
        | some acc =>
          match ctx.amount with
          | none => (some (.integrityError t (.amountMissingForTransaction ctx.tx)), s)
          | some q =>
            match acc.chargeback q with
            | .error e => (some (chargebackErrMap t e), s)
            | .ok acc2 =>
              (none,
                { s with
                    accounts := mapInsert s.accounts t.client acc2
                    transaction_state := mapInsert s.transaction_state t.tx .chargebacked })

/-- `State::apply_transaction`: dispatch on the transaction type. -/
def State.apply_transaction (s : State) (t : Transaction) : Option CephalopodError × State :=
  match t.tpe with
  | .deposit => s.apply_deposit t
  | .withdrawal => s.apply_withdrawal t
  | .dispute => s.apply_dispute t
  | .resolve => s.apply_resolve t
  | .chargeback => s.apply_chargeback t

/-- Apply a whole list of transactions in order, continuing past failures
(the caller's log-and-continue loop). -/
def State.applyAll : State → List Transaction → State
  | s, [] => s
  | s, t :: ts => State.applyAll (s.apply_transaction t).2 ts

/-! ## Helper facts shared across claims -/

/-- Expected prior lifecycle state checked by `assert_state` for each of the
three dispute-workflow operations. -/
def expectedPriorState : TransactionType → Option TransactionState
  | .dispute => some .deposited
  | .resolve => some .disputed
  | .chargeback => some .disputed
  | _ => none

/-! ## C7: error payload of `Account::release` and its escalation by Resolve -/

/-- Concrete account used against `Account::release`: available 5, held 3. -/
def relAccount : Account := { available := 5, held := 3, locked := false }

/-- Fixture state: client 1 owns `relAccount`; transaction 1 is a recorded
deposit of 4 whose lifecycle state is `Disputed`. -/
def relState : State :=
  { accounts := mapInsert (fun _ => none) 1 relAccount
    transaction_history :=
      mapInsert (fun _ => none) 1 { tpe := .deposit, client := 1, tx := 1, amount := some 4 }
    transaction_state := mapInsert (fun _ => none) 1 TransactionState.disputed }

/-- The resolve record referencing transaction 1. -/
def relResolve : Transaction := { tpe := .resolve, client := 1, tx := 1, amount := none }

/-- C7, counterexample: on an unlocked account with `available = 5` and
`held = 3`, releasing 4 fails with `NotEnoughFunds` whose `available` field is
5, the account's available balance — not the held balance 3 that the claim
says it carries. -/
theorem release_error_carries_available_not_held :
    Account.release relAccount 4 = .error (.notEnoughFunds 5 4) ∧
    Account.release relAccount 4 ≠ .error (.notEnoughFunds 3 4) := by
  constructor <;> with_unfolding_all decide

/-- C7, amended: when `Account::release` is invoked (by the Resolve handler)
on an unlocked account with an amount strictly greater than `held`, it fails
with `NotEnoughFunds` whose `available` field carries the account's available
balance (not its held balance) and whose `required` field carries the
requested amount; the state is left unchanged and the Resolve handler
escalates the failure to the `FundsNotLocked` integrity error. -/
theorem release_insufficient_held_reports_available (s : State) (t rtx : Transaction)
    (a : Account) (q : Decimal)
    (ht : t.tpe = .resolve)
    (hh : s.transaction_history t.tx = some rtx)
    (hs : s.transaction_state t.tx = some .disputed)
    (hc : rtx.client = t.client)
    (hq : rtx.amount = some q)
    (ha : s.accounts t.client = some a)
    (hl : a.locked = false)
    (hheld : a.held < q) :
    a.release q = .error (.notEnoughFunds a.available q) ∧
    s.apply_transaction t = (some (.integrityError t (.fundsNotLocked a.available q)), s) := by
  have hrel : a.release q = .error (.notEnoughFunds a.available q) := by
    simp [Account.release, hl, hheld]
  refine ⟨hrel, ?_⟩
  simp [State.apply_transaction, ht, State.apply_resolve, hh, hs, hc, hq, ha, hrel,
    resolveErrMap]

/-- Witness for C7's amended theorem at the concrete fixture. -/
theorem release_insufficient_held_reports_available_witness :
    Account.release relAccount 4 = .error (.notEnoughFunds 5 4) ∧
    relState.apply_transaction relResolve
      = (some (.integrityError relResolve (.fundsNotLocked 5 4)), relState) :=
  release_insufficient_held_reports_available relState relResolve
    { tpe := .deposit, client := 1, tx := 1, amount := some 4 } relAccount 4
    rfl rfl rfl rfl rfl rfl rfl (by with_unfolding_all decide)

/-! ## C8: client mismatch on Dispute/Resolve/Chargeback -/

/-- Fixture state: client 1 owns an account; transaction 1 is a recorded
deposit of 4 by client 1 in lifecycle state `Deposited`. -/
def mmState : State :=
  { accounts := mapInsert (fun _ => none) 1 relAccount
    transaction_history :=
      mapInsert (fun _ => none) 1 { tpe := .deposit, client := 1, tx := 1, amount := some 4 }
    transaction_state := mapInsert (fun _ => none) 1 TransactionState.deposited }

/-- A dispute of transaction 1 issued under the wrong client id 2. -/
def mmDispute : Transaction := { tpe := .dispute, client := 2, tx := 1, amount := none }

/-- C8: a Dispute, Resolve or Chargeback record whose `client` differs from
the referenced historical transaction's client — the referenced transaction
existing and being in the expected lifecycle state — fails with
`TransactionClientMismatch` and returns the state unchanged (so all account
balances are unchanged). -/
theorem client_mismatch_rejected (s : State) (t rtx : Transaction) (st : TransactionState)
    (hty : expectedPriorState t.tpe = some st)
    (hh : s.transaction_history t.tx = some rtx)
    (hs : s.transaction_state t.tx = some st)
    (hc : rtx.client ≠ t.client) :
    s.apply_transaction t
      = (some (.transactionError t (.transactionClientMismatch t.tx t.client)), s) := by
  have hc' : t.client ≠ rtx.client := fun h => hc h.symm
  cases htpe : t.tpe with
  | deposit => simp [expectedPriorState, htpe] at hty
  | withdrawal => simp [expectedPriorState, htpe] at hty
  | dispute =>
      simp only [expectedPriorState, htpe, Option.some.injEq] at hty
      subst hty
      simp [State.apply_transaction, htpe, State.apply_dispute, hh, hs, hc']
  | resolve =>
      simp only [expectedPriorState, htpe, Option.some.injEq] at hty
      subst hty
      simp [State.apply_transaction, htpe, State.apply_resolve, hh, hs, hc']
  | chargeback =>
      simp only [expectedPriorState, htpe, Option.some.injEq] at hty
      subst hty
      simp [State.apply_transaction, htpe, State.apply_chargeback, hh, hs, hc']

/-- Witness for C8 at the concrete fixture. -/
theorem client_mismatch_rejected_witness :
    mmState.apply_transaction mmDispute
      = (some (.transactionError mmDispute (.transactionClientMismatch 1 2)), mmState) :=
  client_mismatch_rejected mmState mmDispute
    { tpe := .deposit, client := 1, tx := 1, amount := some 4 } .deposited
    rfl rfl rfl (by decide)

/-! ## C10: a failed first deposit still creates the account entry -/

/-- A deposit record for a fresh client 7 with a missing amount. -/
def t10 : Transaction := { tpe := .deposit, client := 7, tx := 9, amount := none }

/-- C10: a Deposit for a client with no existing account whose amount is
missing (resp. negative) fails with `AmountNotProvided` (resp.
`NegativeAmountProvided`), yet the client's account entry is created with
`available = 0`, `held = 0`, `locked = false`; the failing call is therefore
not state-preserving. -/
theorem failed_first_deposit_creates_account (s : State) (t : Transaction)
    (ht : t.tpe = .deposit)
    (hnone : s.accounts t.client = none) :
    (t.amount = none →
        s.apply_transaction t
          = (some (.transactionError t .amountNotProvided),
             { s with accounts := mapInsert s.accounts t.client Account.new })) ∧
    (∀ q, t.amount = some q → q < 0 →
        s.apply_transaction t
          = (some (.transactionError t (.negativeAmountProvided q)),
             { s with accounts := mapInsert s.accounts t.client Account.new })) ∧
    ((t.amount = none ∨ ∃ q, t.amount = some q ∧ q < 0) →
        (s.apply_transaction t).2.accounts t.client = some Account.new ∧
          (s.apply_transaction t).2.accounts t.client ≠ s.accounts t.client) := by
  refine ⟨?_, ?_, ?_⟩
  · intro hnoamt
    simp [State.apply_transaction, ht, State.apply_deposit, hnone, hnoamt]
  · intro q hq hneg
    simp [State.apply_transaction, ht, State.apply_deposit, hnone, hq,
      Account.deposit, Account.new, hneg, not_le.mpr hneg, depositErrMap]
  · rintro (hnoamt | ⟨q, hq, hneg⟩) <;>
      simp [State.apply_transaction, ht, State.apply_deposit, hnone, *,
        Account.deposit, Account.new, depositErrMap, mapInsert]

/-- Witness for C10: a missing-amount deposit by fresh client 7. -/
theorem failed_first_deposit_creates_account_witness :
    State.new.apply_transaction t10
      = (some (.transactionError t10 .amountNotProvided),
         { State.new with accounts := mapInsert State.new.accounts 7 Account.new }) ∧
    (State.new.apply_transaction t10).2.accounts 7 = some Account.new ∧
    (State.new.apply_transaction t10).2.accounts 7 ≠ State.new.accounts 7 :=
  (fun h => ⟨h.1 rfl, (h.2.2 (Or.inl rfl)).1, (h.2.2 (Or.inl rfl)).2⟩)
    (failed_first_deposit_creates_account State.new t10 rfl rfl)

/-! ## C4: Dispute then Resolve restores the account -/

/-- C4: in a state where transaction `i` is a recorded deposit by client `c`
of amount `q`, in lifecycle state `Deposited`, and client `c`'s unlocked
account has `q ≤ available` and `0 ≤ held`, applying Dispute on `i` and then
Resolve on `i` (both with client `c`) returns the account to exactly its
pre-dispute value: `available` restored, `held` restored, `locked` false. -/
theorem dispute_resolve_roundtrip (s : State) (c i : ℕ) (am1 am2 : Option Decimal)
    (dtx : Transaction) (a : Account) (q : Decimal)
    (hh : s.transaction_history i = some dtx)
    (hs : s.transaction_state i = some .deposited)
    (hc : dtx.client = c)
    (hq : dtx.amount = some q)
    (ha : s.accounts c = some a)
    (hl : a.locked = false)
    (hav : q ≤ a.available)
    (hheld : 0 ≤ a.held) :
    (((s.apply_transaction { tpe := .dispute, client := c, tx := i, amount := am1 }).2.apply_transaction
        { tpe := .resolve, client := c, tx := i, amount := am2 }).2).accounts c = some a := by
  have hlock : a.lock q = .ok { a with available := a.available - q, held := a.held + q } := by
    simp [Account.lock, hl, not_lt.mpr hav]
  have hstep1 :
      s.apply_transaction { tpe := .dispute, client := c, tx := i, amount := am1 }
        = (none,
           { s with
               accounts := mapInsert s.accounts c
                 { a with available := a.available - q, held := a.held + q }
               transaction_state := mapInsert s.transaction_state i .disputed }) := by
    simp [State.apply_transaction, State.apply_dispute, hh, hs, hc, hq, ha, hlock]
  rw [hstep1]
  have hrel :
      Account.release { a with available := a.available - q, held := a.held + q } q
        = .ok { a with available := a.available - q + q, held := a.held + q - q } := by
    have : ¬ a.held + q < q := not_lt.mpr (le_add_of_nonneg_left hheld)
    simp [Account.release, hl, this]
  simp [State.apply_transaction, State.apply_resolve, hh, hs, hc, hq, ha, hrel, mapInsert,
    sub_add_cancel, add_sub_cancel_right]

/-- Fixture: deposit of 100 by client 1 as transaction 1, disputed. -/
def rrState : State :=
  { accounts := mapInsert (fun _ => none) 1 { available := 100, held := 0, locked := false }
    transaction_history :=
      mapInsert (fun _ => none) 1 { tpe := .deposit, client := 1, tx := 1, amount := some 100 }
    transaction_state := mapInsert (fun _ => none) 1 TransactionState.deposited }

/-- Witness for C4 at the concrete fixture. -/
theorem dispute_resolve_roundtrip_witness :
    (((rrState.apply_transaction { tpe := .dispute, client := 1, tx := 1, amount := none }).2.apply_transaction
        { tpe := .resolve, client := 1, tx := 1, amount := none }).2).accounts 1
      = some { available := 100, held := 0, locked := false } := by
  with_unfolding_all
  exact dispute_resolve_roundtrip rrState 1 1 none none
    { tpe := .deposit, client := 1, tx := 1, amount := some 100 }
    { available := 100, held := 0, locked := false } 100
    rfl rfl rfl rfl rfl rfl (by decide) (by decide)

/-! ## C5: chargeback semantics and the spec's example sequence -/

/-- The spec's example sequence: deposit 100, withdraw 50, deposit 50 as
transactions 1,2,3 on client 1, then dispute tx 1 and charge back tx 1. -/
def exSeqC : List Transaction :=
  [ { tpe := .deposit, client := 1, tx := 1, amount := some 100 },
    { tpe := .withdrawal, client := 1, tx := 2, amount := some 50 },
    { tpe := .deposit, client := 1, tx := 3, amount := some 50 },
    { tpe := .dispute, client := 1, tx := 1, amount := none },
    { tpe := .chargeback, client := 1, tx := 1, amount := none } ]

/-- C5: a successful Chargeback of a disputed transaction subtracts the
referenced amount from `held`, leaves `available` unchanged, sets `locked`
to true and the transaction's lifecycle state to `Chargebacked`; and on the
spec's example sequence the final account of client 1 is
`available = 0, held = 0, locked = true`. -/
theorem chargeback_semantics (s : State) (t ctx : Transaction) (a : Account) (q : Decimal)
    (ht : t.tpe = .chargeback)
    (hh : s.transaction_history t.tx = some ctx)
    (hs : s.transaction_state t.tx = some .disputed)
    (hc : ctx.client = t.client)
    (hq : ctx.amount = some q)
    (ha : s.accounts t.client = some a)
    (hl : a.locked = false)
    (hheld : q ≤ a.held) :
    s.apply_transaction t
      = (none,
         { s with
             accounts := mapInsert s.accounts t.client
               { available := a.available, held := a.held - q, locked := true }
             transaction_state := mapInsert s.transaction_state t.tx .chargebacked }) ∧
    (State.applyAll State.new exSeqC).accounts 1
      = some { available := 0, held := 0, locked := true } := by
  constructor
  · have hcb : a.chargeback q = .ok { a with held := a.held - q, locked := true } := by
      simp [Account.chargeback, hl, not_lt.mpr hheld]
    simp [State.apply_transaction, ht, State.apply_chargeback, hh, hs, hc, hq, ha, hcb]
  · with_unfolding_all decide

/-- Fixture for C5's witness: a disputed deposit of 100 on an account with
`available = 50`, `held = 100`. -/
def cbState : State :=
  { accounts := mapInsert (fun _ => none) 1 { available := 50, held := 100, locked := false }
    transaction_history :=
      mapInsert (fun _ => none) 1 { tpe := .deposit, client := 1, tx := 1, amount := some 100 }
    transaction_state := mapInsert (fun _ => none) 1 TransactionState.disputed }

/-- The chargeback record referencing transaction 1. -/
def cbTx : Transaction := { tpe := .chargeback, client := 1, tx := 1, amount := none }

/-- Witness for C5 at the concrete fixture. -/
theorem chargeback_semantics_witness :
    cbState.apply_transaction cbTx
      = (none,
         { cbState with
             accounts := mapInsert cbState.accounts 1
               { available := 50, held := 0, locked := true }
             transaction_state := mapInsert cbState.transaction_state 1 .chargebacked }) ∧
    (State.applyAll State.new exSeqC).accounts 1
      = some { available := 0, held := 0, locked := true } := by
  with_unfolding_all
  exact chargeback_semantics cbState cbTx
    { tpe := .deposit, client := 1, tx := 1, amount := some 100 }
    { available := 50, held := 100, locked := false } 100
    rfl rfl rfl rfl rfl rfl rfl (by decide)

/-! ## C6: operations against a locked account -/

/-- On a locked account, `apply_deposit` fails (with `AmountNotProvided` or
`AccountLocked`) and only re-inserts the existing account unchanged. -/
theorem apply_deposit_locked (s : State) (t : Transaction) (a : Account)
    (ha : s.accounts t.client = some a) (hl : a.locked = true) :
    (s.apply_deposit t).2 = { s with accounts := mapInsert s.accounts t.client a } ∧
    ((s.apply_deposit t).1 = some (.transactionError t .amountNotProvided) ∨
      (s.apply_deposit t).1 = some (.transactionError t (.accountLocked t.client))) ∧
    (∀ q, t.amount = some q →
      (s.apply_deposit t).1 = some (.transactionError t (.accountLocked t.client))) := by
  rcases hq : t.amount with _ | q
  · simp [State.apply_deposit, ha, hq]
  · have hdep : a.deposit q = .error .accountLocked := by simp [Account.deposit, hl]
    simp [State.apply_deposit, ha, hq, hdep, depositErrMap]

/-- On a locked account, `apply_withdrawal` fails and leaves the state
unchanged. -/
theorem apply_withdrawal_locked (s : State) (t : Transaction) (a : Account)
    (ha : s.accounts t.client = some a) (hl : a.locked = true) :
    (s.apply_withdrawal t).2 = s ∧
    ((s.apply_withdrawal t).1 = some (.transactionError t .amountNotProvided) ∨
      (s.apply_withdrawal t).1 = some (.transactionError t (.accountLocked t.client))) ∧
    (∀ q, t.amount = some q →
      (s.apply_withdrawal t).1 = some (.transactionError t (.accountLocked t.client))) := by
  rcases hq : t.amount with _ | q
  · simp [State.apply_withdrawal, ha, hq]
  · have hwd : a.withdraw q = .error .accountLocked := by simp [Account.withdraw, hl]
    simp [State.apply_withdrawal, ha, hq, hwd, withdrawErrMap]

/-- On a locked target account, `apply_dispute` fails and leaves the state
unchanged. -/
theorem apply_dispute_locked (s : State) (t : Transaction) (a : Account)
    (ha : s.accounts t.client = some a) (hl : a.locked = true) :
    (s.apply_dispute t).1 ≠ none ∧ (s.apply_dispute t).2 = s := by
  rcases hh : s.transaction_history t.tx with _ | dtx
  · simp [State.apply_dispute, hh]
  rcases hs : s.transaction_state t.tx with _ | st
  · simp [State.apply_dispute, hh, hs]
  by_cases h1 : st ≠ TransactionState.deposited
  · simp [State.apply_dispute, hh, hs, h1]
  by_cases h2 : t.client ≠ dtx.client
  · simp [State.apply_dispute, hh, hs, h1, h2]
  rcases hq : dtx.amount with _ | q
  · simp [State.apply_dispute, hh, hs, h1, h2, ha, hq]
  · have hlk : a.lock q = .error .accountLocked := by simp [Account.lock, hl]
    simp [State.apply_dispute, hh, hs, h1, h2, ha, hq, hlk]

/-- On a locked target account, `apply_resolve` fails and leaves the state
unchanged. -/
theorem apply_resolve_locked (s : State) (t : Transaction) (a : Account)
    (ha : s.accounts t.client = some a) (hl : a.locked = true) :
    (s.apply_resolve t).1 ≠ none ∧ (s.apply_resolve t).2 = s := by
  rcases hh : s.transaction_history t.tx with _ | rtx
  · simp [State.apply_resolve, hh]
  rcases hs : s.transaction_state t.tx with _ | st
  · simp [State.apply_resolve, hh, hs]
  by_cases h1 : st ≠ TransactionState.disputed
  · simp [State.apply_resolve, hh, hs, h1]
  by_cases h2 : t.client ≠ rtx.client
  · simp [State.apply_resolve, hh, hs, h1, h2]
  rcases hq : rtx.amount with _ | q
  · simp [State.apply_resolve, hh, hs, h1, h2, ha, hq]
  · have hrl : a.release q = .error .accountLocked := by simp [Account.release, hl]
    simp [State.apply_resolve, hh, hs, h1, h2, ha, hq, hrl]

/-- On a locked target account, `apply_chargeback` fails and leaves the state
unchanged. -/
theorem apply_chargeback_locked (s : State) (t : Transaction) (a : Account)
    (ha : s.accounts t.client = some a) (hl : a.locked = true) :
    (s.apply_chargeback t).1 ≠ none ∧ (s.apply_chargeback t).2 = s := by
  rcases hh : s.transaction_history t.tx with _ | ctx
  · simp [State.apply_chargeback, hh]
  rcases hs : s.transaction_state t.tx with _ | st
  · simp [State.apply_chargeback, hh, hs]
  by_cases h1 : st ≠ TransactionState.disputed
  · simp [State.apply_chargeback, hh, hs, h1]
  by_cases h2 : t.client ≠ ctx.client
  · simp [State.apply_chargeback, hh, hs, h1, h2]
  rcases hq : ctx.amount with _ | q
  · simp [State.apply_chargeback, hh, hs, h1, h2, ha, hq]
  · have hcb : a.chargeback q = .error .accountLocked := by simp [Account.chargeback, hl]
    simp [State.apply_chargeback, hh, hs, h1, h2, ha, hq, hcb]

/-- The state of the spec's example sequence after the chargeback: client 1's
account is locked with zero balances and transaction 1 is `Chargebacked`. -/
def lockedState : State := State.applyAll State.new exSeqC

/-- A renewed dispute of the already charged-back transaction 1. -/
def postDispute : Transaction := { tpe := .dispute, client := 1, tx := 1, amount := none }

/-- C6, counterexample: after the example sequence locks client 1's account,
a subsequent Dispute targeting that account (referencing the charged-back
transaction 1) fails with `TransactionInvalidState Chargebacked`, not with
`AccountLocked` as the claim states. -/
theorem locked_account_error_not_always_accountLocked :
    lockedState.accounts 1 = some { available := 0, held := 0, locked := true } ∧
    (lockedState.apply_transaction postDispute).1
      = some (.transactionError postDispute (.transactionInvalidState .chargebacked)) ∧
    (lockedState.apply_transaction postDispute).1
      ≠ some (.transactionError postDispute (.accountLocked 1)) := by
  refine ⟨?_, ?_, ?_⟩ <;> with_unfolding_all decide

/-- A deposit of 10 targeting the locked account of client 1. -/
def depTx : Transaction := { tpe := .deposit, client := 1, tx := 9, amount := some 10 }

/-! ## Step characterization lemmas -/

/-- `apply_deposit` either fails, merely re-inserting the looked-up (or
freshly created) account unchanged, or succeeds with a present non-negative
amount on an unlocked account, adding the amount to `available` and
recording the transaction as `Deposited`. -/
theorem apply_deposit_cases (s : State) (t : Transaction) :
    (∃ acc e, (s.accounts t.client).getD Account.new = acc ∧
      s.apply_deposit t = (some e, { s with accounts := mapInsert s.accounts t.client acc })) ∨
    (∃ acc q, (s.accounts t.client).getD Account.new = acc ∧
      t.amount = some q ∧ 0 ≤ q ∧ acc.locked = false ∧
      s.apply_deposit t
        = (none,
           { accounts := mapInsert s.accounts t.client
               { acc with available := acc.available + q }
             transaction_history := mapInsert s.transaction_history t.tx t
             transaction_state := mapInsert s.transaction_state t.tx .deposited })) := by
  obtain ⟨acc, hacc⟩ : ∃ a, (s.accounts t.client).getD Account.new = a := ⟨_, rfl⟩
  rcases hq : t.amount with _ | q
  · exact Or.inl ⟨acc, .transactionError t .amountNotProvided,
      hacc, by simp [State.apply_deposit, hq, hacc]⟩
  by_cases hlk : acc.locked = true
  · have hd : acc.deposit q = .error .accountLocked := by simp [Account.deposit, hlk]
    exact Or.inl ⟨acc, depositErrMap t .accountLocked,
      hacc, by simp [State.apply_deposit, hq, hacc, hd]⟩
  by_cases hneg : q < 0
  · have hd : acc.deposit q = .error (.negativeAmount q) := by
      simp [Account.deposit, hlk, hneg]
    exact Or.inl ⟨acc, depositErrMap t (.negativeAmount q),
      hacc, by simp [State.apply_deposit, hq, hacc, hd]⟩
  · have hd : acc.deposit q = .ok { acc with available := acc.available + q } := by
      simp [Account.deposit, hlk, hneg]
    exact Or.inr ⟨acc, q, hacc, rfl, not_lt.mp hneg, by simpa using hlk,
      by simp [State.apply_deposit, hq, hacc, hd]⟩

/-- `apply_withdrawal` either fails leaving the state unchanged, or succeeds
with a present non-negative amount not exceeding `available` on an existing
unlocked account, subtracting the amount from `available` and recording the
transaction as `Withdrawn`. -/
theorem apply_withdrawal_cases (s : State) (t : Transaction) :
    (∃ e, s.apply_withdrawal t = (some e, s)) ∨
    (∃ acc q, s.accounts t.client = some acc ∧ t.amount = some q ∧
      acc.locked = false ∧ 0 ≤ q ∧ q ≤ acc.available ∧
      s.apply_withdrawal t
        = (none,
           { accounts := mapInsert s.accounts t.client
               { acc with available := acc.available - q }
             transaction_history := mapInsert s.transaction_history t.tx t
             transaction_state := mapInsert s.transaction_state t.tx .withdrawn })) := by
  rcases ha : s.accounts t.client with _ | acc
  · exact Or.inl ⟨.transactionError t (.unknownAccount t.client),
      by simp [State.apply_withdrawal, ha]⟩
  rcases hq : t.amount with _ | q
  · exact Or.inl ⟨.transactionError t .amountNotProvided,
      by simp [State.apply_withdrawal, ha, hq]⟩
  by_cases hlk : acc.locked = true
  · have hw : acc.withdraw q = .error .accountLocked := by simp [Account.withdraw, hlk]
    exact Or.inl ⟨withdrawErrMap t .accountLocked,
      by simp [State.apply_withdrawal, ha, hq, hw]⟩
  by_cases hneg : q < 0
  · have hw : acc.withdraw q = .error (.negativeAmount q) := by
      simp [Account.withdraw, hlk, hneg]
    exact Or.inl ⟨withdrawErrMap t (.negativeAmount q),
      by simp [State.apply_withdrawal, ha, hq, hw]⟩
  by_cases hav : acc.available < q
  · have hw : acc.withdraw q = .error (.notEnoughFunds acc.available q) := by
      simp [Account.withdraw, hlk, hneg, hav]
    exact Or.inl ⟨withdrawErrMap t (.notEnoughFunds acc.available q),
      by simp [State.apply_withdrawal, ha, hq, hw]⟩
  · have hw : acc.withdraw q = .ok { acc with available := acc.available - q } := by
      simp [Account.withdraw, hlk, hneg, hav]
    exact Or.inr ⟨acc, q, rfl, rfl, by simpa using hlk, not_lt.mp hneg, not_lt.mp hav,
      by simp [State.apply_withdrawal, ha, hq, hw]⟩

/-- `apply_dispute` either fails leaving the state unchanged, or succeeds:
the referenced transaction exists with a recorded amount and matching client,
its lifecycle state is `Deposited`, and the unlocked account covers the
amount, which moves from `available` to `held` while the lifecycle state
becomes `Disputed`. -/
theorem apply_dispute_cases (s : State) (t : Transaction) :
    (∃ e, s.apply_dispute t = (some e, s)) ∨
    (∃ dtx q acc,
      s.transaction_history t.tx = some dtx ∧
      s.transaction_state t.tx = some TransactionState.deposited ∧
      dtx.client = t.client ∧
      dtx.amount = some q ∧
      s.accounts t.client = some acc ∧
      acc.locked = false ∧ q ≤ acc.available ∧
      s.apply_dispute t
        = (none,
           { s with
               accounts := mapInsert s.accounts t.client
                 { acc with available := acc.available - q, held := acc.held + q }
               transaction_state := mapInsert s.transaction_state t.tx .disputed })) := by
  rcases hh : s.transaction_history t.tx with _ | dtx
  · exact Or.inl ⟨.transactionError t (.transactionNotFound t.tx),
      by simp [State.apply_dispute, hh]⟩
  rcases hs : s.transaction_state t.tx with _ | st
  · exact Or.inl ⟨.integrityError t (.stateMissingForTransaction t.tx),
      by simp [State.apply_dispute, hh, hs]⟩
  by_cases h1 : st ≠ TransactionState.deposited
  · exact Or.inl ⟨.transactionError t (.transactionInvalidState st),
      by simp [State.apply_dispute, hh, hs, h1]⟩
  have h1' : st = TransactionState.deposited := not_not.mp h1
  subst h1'
  by_cases h2 : t.client ≠ dtx.client
  · exact Or.inl ⟨.transactionError t (.transactionClientMismatch t.tx t.client),
      by simp [State.apply_dispute, hh, hs, h2]⟩
  have h2' : dtx.client = t.client := (not_not.mp h2).symm
  rcases hac : s.accounts t.client with _ | acc
  · exact Or.inl ⟨.integrityError t (.accountMissingForTransaction t.client),
      by simp [State.apply_dispute, hh, hs, h2, hac]⟩
  rcases hq : dtx.amount with _ | q
  · exact Or.inl ⟨.integrityError t (.amountMissingForTransaction dtx.tx),
      by simp [State.apply_dispute, hh, hs, h2, hac, hq]⟩
  by_cases hlk : acc.locked = true
  · have hlock : acc.lock q = .error .accountLocked := by simp [Account.lock, hlk]
    exact Or.inl ⟨disputeErrMap t .accountLocked,
      by simp [State.apply_dispute, hh, hs, h2, hac, hq, hlock]⟩
  by_cases hav : acc.available < q
  · have hlock : acc.lock q = .error (.notEnoughFunds acc.available q) := by
      simp [Account.lock, hlk, hav]
    exact Or.inl ⟨disputeErrMap t (.notEnoughFunds acc.available q),
      by simp [State.apply_dispute, hh, hs, h2, hac, hq, hlock]⟩
  · have hlock : acc.lock q
        = .ok { acc with available := acc.available - q, held := acc.held + q } := by
      simp [Account.lock, hlk, hav]
    exact Or.inr ⟨dtx, q, acc, rfl, rfl, h2', hq, rfl, by simpa using hlk, not_lt.mp hav,
      by simp [State.apply_dispute, hh, hs, h2, hac, hq, hlock]⟩

/-- `apply_resolve` either fails leaving the state unchanged, or succeeds:
the referenced transaction exists with a recorded amount and matching client,
its lifecycle state is `Disputed`, and the unlocked account's `held` covers
the amount, which moves from `held` back to `available` while the lifecycle
state becomes `Resolved`. -/
theorem apply_resolve_cases (s : State) (t : Transaction) :
    (∃ e, s.apply_resolve t = (some e, s)) ∨
    (∃ rtx q acc,
      s.transaction_history t.tx = some rtx ∧
      s.transaction_state t.tx = some TransactionState.disputed ∧
      rtx.client = t.client ∧
      rtx.amount = some q ∧
      s.accounts t.client = some acc ∧
      acc.locked = false ∧ q ≤ acc.held ∧
      s.apply_resolve t
        = (none,
           { s with
               accounts := mapInsert s.accounts t.client
                 { acc with available := acc.available + q, held := acc.held - q }
               transaction_state := mapInsert s.transaction_state t.tx .resolved })) := by
  rcases hh : s.transaction_history t.tx with _ | rtx
  · exact Or.inl ⟨.transactionError t (.transactionNotFound t.tx),
      by simp [State.apply_resolve, hh]⟩
  rcases hs : s.transaction_state t.tx with _ | st
  · exact Or.inl ⟨.integrityError t (.stateMissingForTransaction t.tx),
      by simp [State.apply_resolve, hh, hs]⟩
  by_cases h1 : st ≠ TransactionState.disputed
  · exact Or.inl ⟨.transactionError t (.transactionInvalidState st),
      by simp [State.apply_resolve, hh, hs, h1]⟩
  have h1' : st = TransactionState.disputed := not_not.mp h1
  subst h1'
  by_cases h2 : t.client ≠ rtx.client
  · exact Or.inl ⟨.transactionError t (.transactionClientMismatch t.tx t.client),
      by simp [State.apply_resolve, hh, hs, h2]⟩
  have h2' : rtx.client = t.client := (not_not.mp h2).symm
  rcases hac : s.accounts t.client with _ | acc
  · exact Or.inl ⟨.integrityError t (.accountMissingForTransaction t.client),
      by simp [State.apply_resolve, hh, hs, h2, hac]⟩
  rcases hq : rtx.amount with _ | q
  · exact Or.inl ⟨.integrityError t (.amountMissingForTransaction rtx.tx),
      by simp [State.apply_resolve, hh, hs, h2, hac, hq]⟩
  by_cases hlk : acc.locked = true
  · have hrel : acc.release q = .error .accountLocked := by simp [Account.release, hlk]
    exact Or.inl ⟨resolveErrMap t .accountLocked,
      by simp [State.apply_resolve, hh, hs, h2, hac, hq, hrel]⟩
  by_cases hhd : acc.held < q
  · have hrel : acc.release q = .error (.notEnoughFunds acc.available q) := by
      simp [Account.release, hlk, hhd]
    exact Or.inl ⟨resolveErrMap t (.notEnoughFunds acc.available q),
      by simp [State.apply_resolve, hh, hs, h2, hac, hq, hrel]⟩
  · have hrel : acc.release q
        = .ok { acc with available := acc.available + q, held := acc.held - q } := by
      simp [Account.release, hlk, hhd]
    exact Or.inr ⟨rtx, q, acc, rfl, rfl, h2', hq, rfl, by simpa using hlk, not_lt.mp hhd,
      by simp [State.apply_resolve, hh, hs, h2, hac, hq, hrel]⟩

/-- `apply_chargeback` either fails leaving the state unchanged, or succeeds:
the referenced transaction exists with a recorded amount and matching client,
its lifecycle state is `Disputed`, and the unlocked account's `held` covers
the amount, which is removed from `held` while the account becomes locked and
the lifecycle state becomes `Chargebacked`. -/
theorem apply_chargeback_cases (s : State) (t : Transaction) :
    (∃ e, s.apply_chargeback t = (some e, s)) ∨
    (∃ ctx q acc,
      s.transaction_history t.tx = some ctx ∧
      s.transaction_state t.tx = some TransactionState.disputed ∧
      ctx.client = t.client ∧
      ctx.amount = some q ∧
      s.accounts t.client = some acc ∧
      acc.locked = false ∧ q ≤ acc.held ∧
      s.apply_chargeback t
        = (none,
           { s with
               accounts := mapInsert s.accounts t.client
                 { acc with held := acc.held - q, locked := true }
               transaction_state := mapInsert s.transaction_state t.tx .chargebacked })) := by
  rcases hh : s.transaction_history t.tx with _ | ctx
  · exact Or.inl ⟨.transactionError t (.transactionNotFound t.tx),
      by simp [State.apply_chargeback, hh]⟩
  rcases hs : s.transaction_state t.tx with _ | st
  · exact Or.inl ⟨.integrityError t (.stateMissingForTransaction t.tx),
      by simp [State.apply_chargeback, hh, hs]⟩
  by_cases h1 : st ≠ TransactionState.disputed
  · exact Or.inl ⟨.transactionError t (.transactionInvalidState st),
      by simp [State.apply_chargeback, hh, hs, h1]⟩
  have h1' : st = TransactionState.disputed := not_not.mp h1
  subst h1'
  by_cases h2 : t.client ≠ ctx.client
  · exact Or.inl ⟨.transactionError t (.transactionClientMismatch t.tx t.client),
      by simp [State.apply_chargeback, hh, hs, h2]⟩
  have h2' : ctx.client = t.client := (not_not.mp h2).symm
  rcases hac : s.accounts t.client with _ | acc
  · exact Or.inl ⟨.integrityError t (.accountMissingForTransaction t.client),
      by simp [State.apply_chargeback, hh, hs, h2, hac]⟩
  rcases hq : ctx.amount with _ | q
  · exact Or.inl ⟨.integrityError t (.amountMissingForTransaction ctx.tx),
      by simp [State.apply_chargeback, hh, hs, h2, hac, hq]⟩
  by_cases hlk : acc.locked = true
  · have hcb : acc.chargeback q = .error .accountLocked := by simp [Account.chargeback, hlk]
    exact Or.inl ⟨chargebackErrMap t .accountLocked,
      by simp [State.apply_chargeback, hh, hs, h2, hac, hq, hcb]⟩
  by_cases hhd : acc.held < q
  · have hcb : acc.chargeback q = .error (.notEnoughFunds acc.available q) := by
      simp [Account.chargeback, hlk, hhd]
    exact Or.inl ⟨chargebackErrMap t (.notEnoughFunds acc.available q),
      by simp [State.apply_chargeback, hh, hs, h2, hac, hq, hcb]⟩
  · have hcb : acc.chargeback q
        = .ok { acc with held := acc.held - q, locked := true } := by
      simp [Account.chargeback, hlk, hhd]
    exact Or.inr ⟨ctx, q, acc, rfl, rfl, h2', hq, rfl, by simpa using hlk, not_lt.mp hhd,
      by simp [State.apply_chargeback, hh, hs, h2, hac, hq, hcb]⟩

/-! ## C3: the per-transaction lifecycle state machine -/

/-- A Dispute/Resolve/Chargeback step can never move a transaction out of a
terminal (`Resolved` or `Chargebacked`) lifecycle state, and can never
succeed when issued against such a transaction. -/
theorem drc_step_preserves_terminal (s : State) (u : Transaction) (i : ℕ)
    (st : TransactionState)
    (hst : s.transaction_state i = some st)
    (hterm : st = .resolved ∨ st = .chargebacked)
    (hu : u.tpe = .dispute ∨ u.tpe = .resolve ∨ u.tpe = .chargeback) :
    ((s.apply_transaction u).2).transaction_state i = some st ∧
    (u.tx = i → (s.apply_transaction u).1 ≠ none) := by
  rcases hu with h | h | h
  · simp only [State.apply_transaction, h]
    rcases apply_dispute_cases s u with ⟨e, he⟩ | ⟨dtx, q, acc, hh, hs, hcl, hq, hac, hlk, hle, heq⟩
    · rw [he]
      exact ⟨hst, fun _ => by simp⟩
    · have hi : u.tx ≠ i := by
        intro hi
        rw [hi, hst] at hs
        rcases hterm with h' | h' <;> subst h' <;> simp at hs
      rw [heq]
      have hi' : i ≠ u.tx := fun hh' => hi hh'.symm
      exact ⟨by simpa [mapInsert, hi'] using hst, fun hieq => absurd hieq hi⟩
  · simp only [State.apply_transaction, h]
    rcases apply_resolve_cases s u with ⟨e, he⟩ | ⟨rtx, q, acc, hh, hs, hcl, hq, hac, hlk, hle, heq⟩
    · rw [he]
      exact ⟨hst, fun _ => by simp⟩
    · have hi : u.tx ≠ i := by
        intro hi
        rw [hi, hst] at hs
        rcases hterm with h' | h' <;> subst h' <;> simp at hs
      rw [heq]
      have hi' : i ≠ u.tx := fun hh' => hi hh'.symm
      exact ⟨by simpa [mapInsert, hi'] using hst, fun hieq => absurd hieq hi⟩
  · simp only [State.apply_transaction, h]
    rcases apply_chargeback_cases s u with ⟨e, he⟩ | ⟨ctx, q, acc, hh, hs, hcl, hq, hac, hlk, hle, heq⟩
    · rw [he]
      exact ⟨hst, fun _ => by simp⟩
    · have hi : u.tx ≠ i := by
        intro hi
        rw [hi, hst] at hs
        rcases hterm with h' | h' <;> subst h' <;> simp at hs
      rw [heq]
      have hi' : i ≠ u.tx := fun hh' => hi hh'.symm
      exact ⟨by simpa [mapInsert, hi'] using hst, fun hieq => absurd hieq hi⟩

/-- Over any sequence consisting only of Dispute/Resolve/Chargeback records,
a terminal lifecycle state survives unchanged. -/
theorem drc_list_preserves_terminal (s : State) (i : ℕ) (st : TransactionState)
    (ts : List Transaction)
    (hst : s.transaction_state i = some st)
    (hterm : st = .resolved ∨ st = .chargebacked)
    (hts : ∀ u ∈ ts, u.tpe = .dispute ∨ u.tpe = .resolve ∨ u.tpe = .chargeback) :
    (State.applyAll s ts).transaction_state i = some st := by
  induction ts generalizing s with
  | nil => exact hst
  | cons u ts ih =>
      have h1 := drc_step_preserves_terminal s u i st hst hterm (hts u (by simp))
      exact ih _ h1.1 (fun v hv => hts v (by simp [hv]))

/-- C3, amended: for a transaction id `i` with tracked lifecycle state `st`,
a Dispute succeeds only when `st = Deposited` and a Resolve or Chargeback
only when `st = Disputed`; when `st` differs from the operation's expected
state (and the id has a history entry) the operation fails with
`TransactionInvalidState st` and leaves the state unchanged — so a Withdrawn
transaction can never be disputed, and `Resolved`/`Chargebacked` are terminal
for the dispute workflow itself: as long as only Dispute/Resolve/Chargeback
records follow, the state stays terminal and no such operation on `i` ever
succeeds.  (A later Deposit or Withdrawal reusing id `i` can, however, reset
the tracked state and make a new Dispute succeed — see the counterexample.) -/
theorem lifecycle_state_machine (s : State) (i : ℕ) (st : TransactionState)
    (hst : s.transaction_state i = some st) :
    (∀ t, t.tx = i → (s.apply_transaction t).1 = none →
      (t.tpe = .dispute → st = .deposited) ∧
      (t.tpe = .resolve → st = .disputed) ∧
      (t.tpe = .chargeback → st = .disputed)) ∧
    (∀ t rtx stexp, t.tx = i → expectedPriorState t.tpe = some stexp →
      s.transaction_history i = some rtx → st ≠ stexp →
      s.apply_transaction t
        = (some (.transactionError t (.transactionInvalidState st)), s)) ∧
    ((st = .resolved ∨ st = .chargebacked) →
      ∀ ts, (∀ u ∈ ts, u.tpe = .dispute ∨ u.tpe = .resolve ∨ u.tpe = .chargeback) →
        (State.applyAll s ts).transaction_state i = some st ∧
        ∀ u, u.tx = i →
          (u.tpe = .dispute ∨ u.tpe = .resolve ∨ u.tpe = .chargeback) →
          ((State.applyAll s ts).apply_transaction u).1 ≠ none) := by
  refine ⟨?_, ?_, ?_⟩
  · intro t hti hsuc
    subst hti
    refine ⟨?_, ?_, ?_⟩ <;> intro htpe <;> simp only [State.apply_transaction, htpe] at hsuc
    · rcases apply_dispute_cases s t with ⟨e, he⟩ | ⟨_, _, _, _, hs, _⟩
      · rw [he] at hsuc
        simp at hsuc
      · rw [hst] at hs
        exact Option.some.inj hs
    · rcases apply_resolve_cases s t with ⟨e, he⟩ | ⟨_, _, _, _, hs, _⟩
      · rw [he] at hsuc
        simp at hsuc
      · rw [hst] at hs
        exact Option.some.inj hs
    · rcases apply_chargeback_cases s t with ⟨e, he⟩ | ⟨_, _, _, _, hs, _⟩
      · rw [he] at hsuc
        simp at hsuc
      · rw [hst] at hs
        exact Option.some.inj hs
  · intro t rtx stexp hti hexp hh hne
    subst hti
    cases htpe : t.tpe with
    | deposit => simp [expectedPriorState, htpe] at hexp
    | withdrawal => simp [expectedPriorState, htpe] at hexp
    | dispute =>
        simp only [expectedPriorState, htpe, Option.some.injEq] at hexp
        subst hexp
        simp [State.apply_transaction, htpe, State.apply_dispute, hh, hst, hne]
    | resolve =>
        simp only [expectedPriorState, htpe, Option.some.injEq] at hexp
        subst hexp
        simp [State.apply_transaction, htpe, State.apply_resolve, hh, hst, hne]
    | chargeback =>
        simp only [expectedPriorState, htpe, Option.some.injEq] at hexp
        subst hexp
        simp [State.apply_transaction, htpe, State.apply_chargeback, hh, hst, hne]
  · intro hterm ts hts
    have hall := drc_list_preserves_terminal s i st ts hst hterm hts
    exact ⟨hall, fun u hui hu =>
      (drc_step_preserves_terminal (State.applyAll s ts) u i st hall hterm hu).2 hui⟩

/-- Deposit 100 as transaction 1, dispute it, resolve it. -/
def reuseSeqA : List Transaction :=
  [ { tpe := .deposit, client := 1, tx := 1, amount := some 100 },
    { tpe := .dispute, client := 1, tx := 1, amount := none },
    { tpe := .resolve, client := 1, tx := 1, amount := none } ]

/-- ... then deposit again REUSING transaction id 1. -/
def reuseSeqB : List Transaction :=
  reuseSeqA ++ [ { tpe := .deposit, client := 1, tx := 1, amount := some 100 } ]

/-- C3, counterexample: transaction 1 reaches the `Resolved` state, yet after
a later deposit that reuses id 1 (which `apply_deposit` happily overwrites,
resetting the lifecycle state to `Deposited`), a new Dispute of id 1
succeeds — so `Resolved` is not terminal in the unconditional sense the claim
states. -/
theorem resolved_not_terminal_under_id_reuse :
    (State.applyAll State.new reuseSeqA).transaction_state 1
      = some TransactionState.resolved ∧
    ((State.applyAll State.new reuseSeqB).apply_transaction
        { tpe := .dispute, client := 1, tx := 1, amount := none }).1 = none := by
  constructor <;> with_unfolding_all decide

/-- Witness for C3's amended theorem: in the locked example state,
transaction 1 is `Chargebacked`; re-disputing it fails with
`TransactionInvalidState Chargebacked` and the state survives further
dispute traffic unchanged. -/
theorem lifecycle_state_machine_witness :
    lockedState.apply_transaction postDispute
      = (some (.transactionError postDispute
          (.transactionInvalidState .chargebacked)), lockedState) ∧
    (State.applyAll lockedState [postDispute]).transaction_state 1
      = some TransactionState.chargebacked := by
  have h := lifecycle_state_machine lockedState 1 .chargebacked
    (by with_unfolding_all decide)
  refine ⟨h.2.1 postDispute { tpe := .deposit, client := 1, tx := 1, amount := some 100 }
      .deposited rfl rfl (by with_unfolding_all decide) (by decide), ?_⟩
  refine (h.2.2 (Or.inr rfl) [postDispute] ?_).1
  intro u hu
  rw [List.mem_singleton] at hu
  subst hu
  exact Or.inl rfl

/-! ## C1: single-client net balance -/

/-- The `available` balance seen for client `c`, zero when no account entry
exists (a fresh account also starts at zero). -/
def State.availableOf (s : State) (c : ℕ) : Decimal :=
  ((s.accounts c).getD Account.new).available

/-- The claim's two sums: amounts of the successfully applied deposits
(first component) and of the successfully applied withdrawals (second
component), accumulated while applying the list in order. -/
def appliedSums : State → List Transaction → Decimal × Decimal
  | _, [] => (0, 0)
  | s, t :: ts =>
    let r := s.apply_transaction t
    let rest := appliedSums r.2 ts
    if r.1 = none then
      match t.tpe with
      | .deposit => (t.amount.getD 0 + rest.1, rest.2)
      | .withdrawal => (rest.1, t.amount.getD 0 + rest.2)
      | _ => rest
    else rest

/-- One deposit step changes the client's `available` by exactly the
deposited amount when it succeeds, and not at all when it fails. -/
theorem availableOf_deposit_step (s : State) (t : Transaction) (ht : t.tpe = .deposit) :
    (s.apply_transaction t).2.availableOf t.client
      = s.availableOf t.client
        + (if (s.apply_transaction t).1 = none then t.amount.getD 0 else 0) := by
  simp only [State.apply_transaction, ht]
  rcases apply_deposit_cases s t with ⟨acc, e, hacc, heq⟩ | ⟨acc, q, hacc, hq, _, _, heq⟩
  · rw [heq]
    simp [State.availableOf, mapInsert, hacc]
  · rw [heq]
    simp [State.availableOf, mapInsert, hacc, hq]

/-- One withdrawal step changes the client's `available` by exactly the
withdrawn amount when it succeeds, and not at all when it fails. -/
theorem availableOf_withdrawal_step (s : State) (t : Transaction) (ht : t.tpe = .withdrawal) :
    (s.apply_transaction t).2.availableOf t.client
      = s.availableOf t.client
        - (if (s.apply_transaction t).1 = none then t.amount.getD 0 else 0) := by
  simp only [State.apply_transaction, ht]
  rcases apply_withdrawal_cases s t with ⟨e, heq⟩ | ⟨acc, q, hacc, hq, _, _, _, heq⟩
  · rw [heq]
    simp
  · rw [heq]
    simp [State.availableOf, mapInsert, hacc, hq]

/-- Net-balance invariant over a whole deposit/withdrawal-only run, from an
arbitrary starting state. -/
theorem availableOf_applyAll (c : ℕ) (ts : List Transaction) (s : State)
    (h : ∀ t ∈ ts, t.client = c ∧ (t.tpe = .deposit ∨ t.tpe = .withdrawal)) :
    (State.applyAll s ts).availableOf c
      = s.availableOf c + ((appliedSums s ts).1 - (appliedSums s ts).2) := by
  induction ts generalizing s with
  | nil => simp [State.applyAll, appliedSums]
  | cons t ts ih =>
      obtain ⟨hc, hty⟩ := h t (by simp)
      have ih' := ih (s.apply_transaction t).2 (fun u hu => h u (by simp [hu]))
      rw [show State.applyAll s (t :: ts) = State.applyAll (s.apply_transaction t).2 ts
        from rfl, ih']
      rcases hty with htd | htw
      · have hstep := availableOf_deposit_step s t htd
        rw [hc] at hstep
        by_cases hsuc : (s.apply_transaction t).1 = none
        · rw [if_pos hsuc] at hstep
          simp only [appliedSums, htd, hsuc, if_pos]
          rw [hstep]
          ring
        · rw [if_neg hsuc] at hstep
          simp only [appliedSums, htd, hsuc, if_neg, ite_false]
          rw [hstep]
          ring
      · have hstep := availableOf_withdrawal_step s t htw
        rw [hc] at hstep
        by_cases hsuc : (s.apply_transaction t).1 = none
        · rw [if_pos hsuc] at hstep
          simp only [appliedSums, htw, hsuc, if_pos]
          rw [hstep]
          ring
        · rw [if_neg hsuc] at hstep
          simp only [appliedSums, htw, hsuc, if_neg, ite_false]
          rw [hstep]
          ring

/-- C1: for every sequence of Deposit/Withdrawal records of a single client
applied in order to a fresh state, the client's final `available` balance
equals the sum of the amounts of the successfully applied deposits minus the
sum of the amounts of the successfully applied withdrawals. -/
theorem single_client_net_balance (c : ℕ) (ts : List Transaction)
    (h : ∀ t ∈ ts, t.client = c ∧ (t.tpe = .deposit ∨ t.tpe = .withdrawal)) :
    (State.applyAll State.new ts).availableOf c
      = (appliedSums State.new ts).1 - (appliedSums State.new ts).2 := by
  have hmain := availableOf_applyAll c ts State.new h
  simpa [State.availableOf, State.new, Account.new] using hmain

/-- A mixed single-client run: deposit 100, withdraw 30, an overdraft
withdrawal of 200 that fails, and a deposit without an amount that fails. -/
def c1Seq : List Transaction :=
  [ { tpe := .deposit, client := 1, tx := 1, amount := some 100 },
    { tpe := .withdrawal, client := 1, tx := 2, amount := some 30 },
    { tpe := .withdrawal, client := 1, tx := 3, amount := some 200 },
    { tpe := .deposit, client := 1, tx := 4, amount := none } ]

/-- Witness for C1 at the concrete run (final balance 100 - 30 = 70). -/
theorem single_client_net_balance_witness :
    (State.applyAll State.new c1Seq).availableOf 1
      = (appliedSums State.new c1Seq).1 - (appliedSums State.new c1Seq).2 ∧
    (State.applyAll State.new c1Seq).availableOf 1 = 70 := by
  refine ⟨single_client_net_balance 1 c1Seq ?_, ?_⟩
  · intro t ht
    fin_cases ht <;> simp [c1Seq]
  · with_unfolding_all decide

/-! ## Reachability invariant (for C2 and C9) -/

/-- The amount that transaction `i` contributes to the funds that must be
held for client `c`: the recorded amount when `i` is currently `Disputed`
and its history entry belongs to `c`, and zero otherwise. -/
def heldContribution (s : State) (c i : ℕ) : Decimal :=
  if s.transaction_state i = some TransactionState.disputed then
    match s.transaction_history i with
    | some tr => if tr.client = c then tr.amount.getD 0 else 0
    | none => 0
  else 0

/-- Total amount currently under dispute for client `c`, summed over a
finite set `D` covering all ids with a lifecycle state. -/
def heldSum (s : State) (D : Finset ℕ) (c : ℕ) : Decimal :=
  ∑ i in D, heldContribution s c i

/-- Invariant satisfied by every state reachable from `State.new`. -/
structure Inv (s : State) : Prop where
  accNonneg : ∀ c a, s.accounts c = some a → 0 ≤ a.available ∧ 0 ≤ a.held
  histAmount : ∀ i tr, s.transaction_history i = some tr → ∃ q, tr.amount = some q ∧ 0 ≤ q
  histState : ∀ i tr, s.transaction_history i = some tr → s.transaction_state i ≠ none
  histAccount : ∀ i tr, s.transaction_history i = some tr → s.accounts tr.client ≠ none
  held_cover : ∃ D : Finset ℕ, (∀ i, i ∉ D → s.transaction_state i = none) ∧
    ∀ c a, s.accounts c = some a → heldSum s D c ≤ a.held

/-- Contributions are non-negative as soon as all recorded amounts are. -/
theorem heldContribution_nonneg (s : State) (c i : ℕ)
    (hamt : ∀ j tr, s.transaction_history j = some tr → ∃ q, tr.amount = some q ∧ 0 ≤ q) :
    0 ≤ heldContribution s c i := by
  unfold heldContribution
  by_cases hd : s.transaction_state i = some TransactionState.disputed
  · rw [if_pos hd]
    rcases hh : s.transaction_history i with _ | tr
    · exact le_refl 0
    · by_cases hc : tr.client = c
      · obtain ⟨q, hq, hq0⟩ := hamt i tr hh
        simp [hc, hq]
        exact hq0
      · simp [hc]
  · rw [if_neg hd]

/-- How a sum over `D` changes when the contribution function changes at a
single key `k ∈ D` and nowhere else. -/
theorem heldSum_change (s s2 : State) (D : Finset ℕ) (c k : ℕ) (hk : k ∈ D)
    (hoff : ∀ j, j ≠ k → heldContribution s2 c j = heldContribution s c j) :
    heldSum s2 D c
      = heldSum s D c + (heldContribution s2 c k - heldContribution s c k) := by
  unfold heldSum
  rw [← Finset.sum_erase_add D (heldContribution s2 c) hk,
    ← Finset.sum_erase_add D (heldContribution s c) hk]
  have hsame : ∑ i in D.erase k, heldContribution s2 c i
      = ∑ i in D.erase k, heldContribution s c i :=
    Finset.sum_congr rfl (fun j hj => hoff j (Finset.ne_of_mem_erase hj))
  rw [hsame]
  ring

/-- Sums agree when the contributions agree on all of `D`. -/
theorem heldSum_congr (s s2 : State) (D : Finset ℕ) (c : ℕ)
    (h : ∀ j ∈ D, heldContribution s2 c j = heldContribution s c j) :
    heldSum s2 D c = heldSum s D c :=
  Finset.sum_congr rfl h

/-- A single disputed transaction's amount is at most the whole disputed
sum for its client. -/
theorem heldContribution_le_heldSum (s : State) (D : Finset ℕ) (c k : ℕ) (hk : k ∈ D)
    (hamt : ∀ j tr, s.transaction_history j = some tr → ∃ q, tr.amount = some q ∧ 0 ≤ q) :
    heldContribution s c k ≤ heldSum s D c :=
  Finset.single_le_sum (fun j _ => heldContribution_nonneg s c j hamt) hk

theorem mapInsert_same {α : Type} (m : ℕ → Option α) (k : ℕ) (v : α) :
    mapInsert m k v k = some v := by
  simp [mapInsert]

theorem mapInsert_other {α : Type} (m : ℕ → Option α) (k : ℕ) (v : α) (j : ℕ)
    (h : j ≠ k) : mapInsert m k v j = m j := by
  simp [mapInsert, h]

theorem mapInsert_ne_none {α : Type} (m : ℕ → Option α) (k : ℕ) (v : α) (j : ℕ)
    (h : m j ≠ none) : mapInsert m k v j ≠ none := by
  by_cases hj : j = k
  · subst hj
    rw [mapInsert_same]
    simp
  · rw [mapInsert_other _ _ _ _ hj]
    exact h

theorem heldContribution_eq_of_eq (s s2 : State) (c j : ℕ)
    (hst : s2.transaction_state j = s.transaction_state j)
    (hh : s2.transaction_history j = s.transaction_history j) :
    heldContribution s2 c j = heldContribution s c j := by
  unfold heldContribution
  rw [hst, hh]

/-- A client with no account entry has nothing under dispute: every history
entry's client owns an account. -/
theorem heldSum_zero_of_no_account (s : State) (D : Finset ℕ) (c : ℕ)
    (hnone : s.accounts c = none)
    (haccnt : ∀ i tr, s.transaction_history i = some tr → s.accounts tr.client ≠ none) :
    heldSum s D c = 0 := by
  unfold heldSum
  apply Finset.sum_eq_zero
  intro j _
  unfold heldContribution
  by_cases hd : s.transaction_state j = some TransactionState.disputed
  · rw [if_pos hd]
    rcases hh : s.transaction_history j with _ | tr
    · rfl
    · by_cases hc : tr.client = c
      · exact absurd hnone (hc ▸ haccnt j tr hh)
      · simp [hc]
  · rw [if_neg hd]

/-- When the contribution at `k` drops to zero and nothing else changes, the
disputed sum over `insert k D` is bounded by the old sum over `D`. -/
theorem heldSum_insert_zero (s s2 : State) (D : Finset ℕ) (c k : ℕ)
    (hzero : heldContribution s2 c k = 0)
    (hoff : ∀ j, j ≠ k → heldContribution s2 c j = heldContribution s c j)
    (hamt : ∀ j tr, s.transaction_history j = some tr → ∃ q, tr.amount = some q ∧ 0 ≤ q) :
    heldSum s2 (insert k D) c ≤ heldSum s D c := by
  by_cases hk : k ∈ D
  · rw [Finset.insert_eq_self.mpr hk, heldSum_change s s2 D c k hk hoff, hzero]
    have h0 := heldContribution_nonneg s c k hamt
    linarith
  · unfold heldSum
    rw [Finset.sum_insert hk, hzero, zero_add]
    exact le_of_eq (Finset.sum_congr rfl (fun j hj => hoff j (fun hje => hk (hje ▸ hj))))

/-- The looked-up-or-fresh account of an invariant state has non-negative
balances. -/
theorem getD_nonneg (s : State) (c : ℕ) (acc : Account)
    (haccN : ∀ c a, s.accounts c = some a → 0 ≤ a.available ∧ 0 ≤ a.held)
    (hacc : (s.accounts c).getD Account.new = acc) :
    0 ≤ acc.available ∧ 0 ≤ acc.held := by
  rcases ha : s.accounts c with _ | a0
  · rw [ha] at hacc
    simp at hacc
    subst hacc
    simp [Account.new]
  · rw [ha] at hacc
    simp at hacc
    subst hacc
    exact haccN c a0 ha

/-- `apply_deposit` preserves the reachability invariant. -/
theorem inv_apply_deposit (s : State) (t : Transaction) (hinv : Inv s) :
    Inv (s.apply_deposit t).2 := by
  obtain ⟨haccN, hamt, hst, haccnt, D, hD, hcov⟩ := hinv
  rcases apply_deposit_cases s t with ⟨acc, e, hacc, heq⟩ | ⟨acc, q, hacc, hq, hq0, hlk, heq⟩
  · -- failed deposit: only the account entry is (re-)inserted, unchanged
    have hval := getD_nonneg s t.client acc haccN hacc
    have h2 : (s.apply_deposit t).2
        = { s with accounts := mapInsert s.accounts t.client acc } := by
      rw [heq]
    rw [h2]
    refine ⟨?_, hamt, hst, ?_, ⟨D, hD, ?_⟩⟩
    · intro c a hca
      replace hca : mapInsert s.accounts t.client acc c = some a := hca
      by_cases hc : c = t.client
      · subst hc
        rw [mapInsert_same] at hca
        obtain rfl := Option.some.inj hca
        exact hval
      · rw [mapInsert_other _ _ _ _ hc] at hca
        exact haccN c a hca
    · intro i tr hi
      replace hi : s.transaction_history i = some tr := hi
      show mapInsert s.accounts t.client acc tr.client ≠ none
      exact mapInsert_ne_none _ _ _ _ (haccnt i tr hi)
    · intro c a hca
      replace hca : mapInsert s.accounts t.client acc c = some a := hca
      have hsumeq :
          heldSum { s with accounts := mapInsert s.accounts t.client acc } D c
            = heldSum s D c :=
        heldSum_congr _ _ _ _ (fun j _ => heldContribution_eq_of_eq _ _ _ _ rfl rfl)
      rw [hsumeq]
      by_cases hc : c = t.client
      · subst hc
        rw [mapInsert_same] at hca
        obtain rfl := Option.some.inj hca
        rcases ha : s.accounts t.client with _ | a0
        · rw [ha] at hacc
          simp at hacc
          subst hacc
          rw [heldSum_zero_of_no_account s D t.client ha haccnt]
          simp [Account.new]
        · rw [ha] at hacc
          simp at hacc
          subst hacc
          exact hcov t.client a0 ha
      · rw [mapInsert_other _ _ _ _ hc] at hca
        exact hcov c a hca
  · -- successful deposit
    have hval := getD_nonneg s t.client acc haccN hacc
    have h2 : (s.apply_deposit t).2
        = { accounts := mapInsert s.accounts t.client
              { acc with available := acc.available + q }
            transaction_history := mapInsert s.transaction_history t.tx t
            transaction_state := mapInsert s.transaction_state t.tx .deposited } := by
      rw [heq]
    rw [h2]
    refine ⟨?_, ?_, ?_, ?_, ⟨insert t.tx D, ?_, ?_⟩⟩
    · intro c a hca
      replace hca : mapInsert s.accounts t.client
          { acc with available := acc.available + q } c = some a := hca
      by_cases hc : c = t.client
      · subst hc
        rw [mapInsert_same] at hca
        obtain rfl := Option.some.inj hca
        exact ⟨add_nonneg hval.1 hq0, hval.2⟩
      · rw [mapInsert_other _ _ _ _ hc] at hca
        exact haccN c a hca
    · intro i tr hi
      replace hi : mapInsert s.transaction_history t.tx t i = some tr := hi
      by_cases hit : i = t.tx
      · subst hit
        rw [mapInsert_same] at hi
        obtain rfl := Option.some.inj hi
        exact ⟨q, hq, hq0⟩
      · rw [mapInsert_other _ _ _ _ hit] at hi
        exact hamt i tr hi
    · intro i tr hi
      replace hi : mapInsert s.transaction_history t.tx t i = some tr := hi
      show mapInsert s.transaction_state t.tx TransactionState.deposited i ≠ none
      by_cases hit : i = t.tx
      · subst hit
        rw [mapInsert_same]
        simp
      · rw [mapInsert_other _ _ _ _ hit]
        rw [mapInsert_other _ _ _ _ hit] at hi
        exact hst i tr hi
    · intro i tr hi
      replace hi : mapInsert s.transaction_history t.tx t i = some tr := hi
      show mapInsert s.accounts t.client
          { acc with available := acc.available + q } tr.client ≠ none
      by_cases hit : i = t.tx
      · subst hit
        rw [mapInsert_same] at hi
        obtain rfl := Option.some.inj hi
        rw [mapInsert_same]
        simp
      · rw [mapInsert_other _ _ _ _ hit] at hi
        exact mapInsert_ne_none _ _ _ _ (haccnt i tr hi)
    · intro i hi
      rw [Finset.mem_insert, not_or] at hi
      show mapInsert s.transaction_state t.tx TransactionState.deposited i = none
      rw [mapInsert_other _ _ _ _ hi.1]
      exact hD i hi.2
    · intro c a hca
      replace hca : mapInsert s.accounts t.client
          { acc with available := acc.available + q } c = some a := hca
      refine le_trans (heldSum_insert_zero s _ D c t.tx ?_ ?_ hamt) ?_
      · simp [heldContribution, mapInsert_same]
      · intro j hj
        simp [heldContribution, mapInsert_other _ _ _ _ hj]
      · by_cases hc : c = t.client
        · subst hc
          rw [mapInsert_same] at hca
          obtain rfl := Option.some.inj hca
          rcases ha : s.accounts t.client with _ | a0
          · rw [ha] at hacc
            simp at hacc
            subst hacc
            rw [heldSum_zero_of_no_account s D t.client ha haccnt]
            simp [Account.new]
          · rw [ha] at hacc
            simp at hacc
            subst hacc
            exact hcov t.client a0 ha
        · rw [mapInsert_other _ _ _ _ hc] at hca
          exact hcov c a hca

/-- `apply_withdrawal` preserves the reachability invariant. -/
theorem inv_apply_withdrawal (s : State) (t : Transaction) (hinv : Inv s) :
    Inv (s.apply_withdrawal t).2 := by
  obtain ⟨haccN, hamt, hst, haccnt, D, hD, hcov⟩ := hinv
  rcases apply_withdrawal_cases s t with ⟨e, heq⟩ | ⟨acc, q, hacc, hq, hlk, hq0, hqa, heq⟩
  · have h2 : (s.apply_withdrawal t).2 = s := by rw [heq]
    rw [h2]
    exact ⟨haccN, hamt, hst, haccnt, D, hD, hcov⟩
  · have h2 : (s.apply_withdrawal t).2
        = { accounts := mapInsert s.accounts t.client
              { acc with available := acc.available - q }
            transaction_history := mapInsert s.transaction_history t.tx t
            transaction_state := mapInsert s.transaction_state t.tx .withdrawn } := by
      rw [heq]
    rw [h2]
    refine ⟨?_, ?_, ?_, ?_, ⟨insert t.tx D, ?_, ?_⟩⟩
    · intro c a hca
      replace hca : mapInsert s.accounts t.client
          { acc with available := acc.available - q } c = some a := hca
      by_cases hc : c = t.client
      · subst hc
        rw [mapInsert_same] at hca
        obtain rfl := Option.some.inj hca
        exact ⟨sub_nonneg.mpr hqa, (haccN t.client acc hacc).2⟩
      · rw [mapInsert_other _ _ _ _ hc] at hca
        exact haccN c a hca
    · intro i tr hi
      replace hi : mapInsert s.transaction_history t.tx t i = some tr := hi
      by_cases hit : i = t.tx
      · subst hit
        rw [mapInsert_same] at hi
        obtain rfl := Option.some.inj hi
        exact ⟨q, hq, hq0⟩
      · rw [mapInsert_other _ _ _ _ hit] at hi
        exact hamt i tr hi
    · intro i tr hi
      replace hi : mapInsert s.transaction_history t.tx t i = some tr := hi
      show mapInsert s.transaction_state t.tx TransactionState.withdrawn i ≠ none
      by_cases hit : i = t.tx
      · subst hit
        rw [mapInsert_same]
        simp
      · rw [mapInsert_other _ _ _ _ hit]
        rw [mapInsert_other _ _ _ _ hit] at hi
        exact hst i tr hi
    · intro i tr hi
      replace hi : mapInsert s.transaction_history t.tx t i = some tr := hi
      show mapInsert s.accounts t.client
          { acc with available := acc.available - q } tr.client ≠ none
      by_cases hit : i = t.tx
      · subst hit
        rw [mapInsert_same] at hi
        obtain rfl := Option.some.inj hi
        rw [mapInsert_same]
        simp
      · rw [mapInsert_other _ _ _ _ hit] at hi
        exact mapInsert_ne_none _ _ _ _ (haccnt i tr hi)
    · intro i hi
      rw [Finset.mem_insert, not_or] at hi
      show mapInsert s.transaction_state t.tx TransactionState.withdrawn i = none
      rw [mapInsert_other _ _ _ _ hi.1]
      exact hD i hi.2
    · intro c a hca
      replace hca : mapInsert s.accounts t.client
          { acc with available := acc.available - q } c = some a := hca
      refine le_trans (heldSum_insert_zero s _ D c t.tx ?_ ?_ hamt) ?_
      · simp [heldContribution, mapInsert_same]
      · intro j hj
        simp [heldContribution, mapInsert_other _ _ _ _ hj]
      · by_cases hc : c = t.client
        · subst hc
          rw [mapInsert_same] at hca
          obtain rfl := Option.some.inj hca
          exact hcov t.client acc hacc
        · rw [mapInsert_other _ _ _ _ hc] at hca
          exact hcov c a hca

/-- `apply_dispute` preserves the reachability invariant. -/
theorem inv_apply_dispute (s : State) (t : Transaction) (hinv : Inv s) :
    Inv (s.apply_dispute t).2 := by
  obtain ⟨haccN, hamt, hst, haccnt, D, hD, hcov⟩ := hinv
  rcases apply_dispute_cases s t
    with ⟨e, heq⟩ | ⟨dtx, q, acc, hh, hs, hcl, hq, hac, hlk, hle, heq⟩
  · have h2 : (s.apply_dispute t).2 = s := by rw [heq]
    rw [h2]
    exact ⟨haccN, hamt, hst, haccnt, D, hD, hcov⟩
  · have hq0 : 0 ≤ q := by
      obtain ⟨q2, hq2, h02⟩ := hamt t.tx dtx hh
      rw [hq] at hq2
      obtain rfl := Option.some.inj hq2
      exact h02
    have htD : t.tx ∈ D := by
      by_contra hmem
      rw [hD t.tx hmem] at hs
      cases hs
    have h2 : (s.apply_dispute t).2
        = { s with
              accounts := mapInsert s.accounts t.client
                { acc with available := acc.available - q, held := acc.held + q }
              transaction_state := mapInsert s.transaction_state t.tx .disputed } := by
      rw [heq]
    rw [h2]
    refine ⟨?_, hamt, ?_, ?_, ⟨D, ?_, ?_⟩⟩
    · intro c a hca
      replace hca : mapInsert s.accounts t.client
          { acc with available := acc.available - q, held := acc.held + q } c = some a := hca
      by_cases hc : c = t.client
      · subst hc
        rw [mapInsert_same] at hca
        obtain rfl := Option.some.inj hca
        exact ⟨sub_nonneg.mpr hle, add_nonneg (haccN t.client acc hac).2 hq0⟩
      · rw [mapInsert_other _ _ _ _ hc] at hca
        exact haccN c a hca
    · intro i tr hi
      replace hi : s.transaction_history i = some tr := hi
      show mapInsert s.transaction_state t.tx TransactionState.disputed i ≠ none
      by_cases hit : i = t.tx
      · subst hit
        rw [mapInsert_same]
        simp
      · rw [mapInsert_other _ _ _ _ hit]
        exact hst i tr hi
    · intro i tr hi
      replace hi : s.transaction_history i = some tr := hi
      show mapInsert s.accounts t.client
          { acc with available := acc.available - q, held := acc.held + q } tr.client ≠ none
      exact mapInsert_ne_none _ _ _ _ (haccnt i tr hi)
    · intro i hi
      have hit : i ≠ t.tx := fun h => hi (h ▸ htD)
      show mapInsert s.transaction_state t.tx TransactionState.disputed i = none
      rw [mapInsert_other _ _ _ _ hit]
      exact hD i hi
    · intro c a hca
      replace hca : mapInsert s.accounts t.client
          { acc with available := acc.available - q, held := acc.held + q } c = some a := hca
      set s2 : State :=
        { s with
            accounts := mapInsert s.accounts t.client
              { acc with available := acc.available - q, held := acc.held + q }
            transaction_state := mapInsert s.transaction_state t.tx .disputed } with hs2
      have hsum : heldSum s2 D c
          = heldSum s D c + (heldContribution s2 c t.tx - heldContribution s c t.tx) :=
        heldSum_change s s2 D c t.tx htD (fun j hj =>
          heldContribution_eq_of_eq _ _ _ _
            (by rw [hs2]; exact mapInsert_other _ _ _ _ hj) (by rw [hs2]))
      have hold : heldContribution s c t.tx = 0 := by
        simp [heldContribution, hs]
      rw [hsum, hold]
      by_cases hc : c = t.client
      · subst hc
        rw [mapInsert_same] at hca
        obtain rfl := Option.some.inj hca
        have hnew : heldContribution s2 t.client t.tx = q := by
          rw [hs2]
          simp [heldContribution, mapInsert_same, hh, hcl, hq]
        rw [hnew]
        have := hcov t.client acc hac
        show heldSum s D t.client + (q - 0) ≤ acc.held + q
        linarith
      · rw [mapInsert_other _ _ _ _ hc] at hca
        have hcl' : dtx.client ≠ c := by
          rw [hcl]
          exact fun h => hc h.symm
        have hnew : heldContribution s2 c t.tx = 0 := by
          rw [hs2]
          simp [heldContribution, mapInsert_same, hh, hcl']
        rw [hnew]
        have := hcov c a hca
        linarith

/-- `apply_resolve` preserves the reachability invariant. -/
theorem inv_apply_resolve (s : State) (t : Transaction) (hinv : Inv s) :
    Inv (s.apply_resolve t).2 := by
  obtain ⟨haccN, hamt, hst, haccnt, D, hD, hcov⟩ := hinv
  rcases apply_resolve_cases s t
    with ⟨e, heq⟩ | ⟨rtx, q, acc, hh, hs, hcl, hq, hac, hlk, hle, heq⟩
  · have h2 : (s.apply_resolve t).2 = s := by rw [heq]
    rw [h2]
    exact ⟨haccN, hamt, hst, haccnt, D, hD, hcov⟩
  · have hq0 : 0 ≤ q := by
      obtain ⟨q2, hq2, h02⟩ := hamt t.tx rtx hh
      rw [hq] at hq2
      obtain rfl := Option.some.inj hq2
      exact h02
    have htD : t.tx ∈ D := by
      by_contra hmem
      rw [hD t.tx hmem] at hs
      cases hs
    have h2 : (s.apply_resolve t).2
        = { s with
              accounts := mapInsert s.accounts t.client
                { acc with available := acc.available + q, held := acc.held - q }
              transaction_state := mapInsert s.transaction_state t.tx .resolved } := by
      rw [heq]
    rw [h2]
    refine ⟨?_, hamt, ?_, ?_, ⟨D, ?_, ?_⟩⟩
    · intro c a hca
      replace hca : mapInsert s.accounts t.client
          { acc with available := acc.available + q, held := acc.held - q } c = some a := hca
      by_cases hc : c = t.client
      · subst hc
        rw [mapInsert_same] at hca
        obtain rfl := Option.some.inj hca
        exact ⟨add_nonneg (haccN t.client acc hac).1 hq0, sub_nonneg.mpr hle⟩
      · rw [mapInsert_other _ _ _ _ hc] at hca
        exact haccN c a hca
    · intro i tr hi
      replace hi : s.transaction_history i = some tr := hi
      show mapInsert s.transaction_state t.tx TransactionState.resolved i ≠ none
      by_cases hit : i = t.tx
      · subst hit
        rw [mapInsert_same]
        simp
      · rw [mapInsert_other _ _ _ _ hit]
        exact hst i tr hi
    · intro i tr hi
      replace hi : s.transaction_history i = some tr := hi
      show mapInsert s.accounts t.client
          { acc with available := acc.available + q, held := acc.held - q } tr.client ≠ none
      exact mapInsert_ne_none _ _ _ _ (haccnt i tr hi)
    · intro i hi
      have hit : i ≠ t.tx := fun h => hi (h ▸ htD)
      show mapInsert s.transaction_state t.tx TransactionState.resolved i = none
      rw [mapInsert_other _ _ _ _ hit]
      exact hD i hi
    · intro c a hca
      replace hca : mapInsert s.accounts t.client
          { acc with available := acc.available + q, held := acc.held - q } c = some a := hca
      set s2 : State :=
        { s with
            accounts := mapInsert s.accounts t.client
              { acc with available := acc.available + q, held := acc.held - q }
            transaction_state := mapInsert s.transaction_state t.tx .resolved } with hs2
      have hsum : heldSum s2 D c
          = heldSum s D c + (heldContribution s2 c t.tx - heldContribution s c t.tx) :=
        heldSum_change s s2 D c t.tx htD (fun j hj =>
          heldContribution_eq_of_eq _ _ _ _
            (by rw [hs2]; exact mapInsert_other _ _ _ _ hj) (by rw [hs2]))
      have hnew : heldContribution s2 c t.tx = 0 := by
        rw [hs2]
        simp [heldContribution, mapInsert_same]
      rw [hsum, hnew]
      by_cases hc : c = t.client
      · subst hc
        rw [mapInsert_same] at hca
        obtain rfl := Option.some.inj hca
        have hold : heldContribution s t.client t.tx = q := by
          simp [heldContribution, hs, hh, hcl, hq]
        rw [hold]
        have := hcov t.client acc hac
        show heldSum s D t.client + (0 - q) ≤ acc.held - q
        linarith
      · rw [mapInsert_other _ _ _ _ hc] at hca
        have hcl' : rtx.client ≠ c := by
          rw [hcl]
          exact fun h => hc h.symm
        have hold : heldContribution s c t.tx = 0 := by
          simp [heldContribution, hs, hh, hcl']
        rw [hold]
        have := hcov c a hca
        linarith

/-- `apply_chargeback` preserves the reachability invariant. -/
theorem inv_apply_chargeback (s : State) (t : Transaction) (hinv : Inv s) :
    Inv (s.apply_chargeback t).2 := by
  obtain ⟨haccN, hamt, hst, haccnt, D, hD, hcov⟩ := hinv
  rcases apply_chargeback_cases s t
    with ⟨e, heq⟩ | ⟨ctx, q, acc, hh, hs, hcl, hq, hac, hlk, hle, heq⟩
  · have h2 : (s.apply_chargeback t).2 = s := by rw [heq]
    rw [h2]
    exact ⟨haccN, hamt, hst, haccnt, D, hD, hcov⟩
  · have hq0 : 0 ≤ q := by
      obtain ⟨q2, hq2, h02⟩ := hamt t.tx ctx hh
      rw [hq] at hq2
      obtain rfl := Option.some.inj hq2
      exact h02
    have htD : t.tx ∈ D := by
      by_contra hmem
      rw [hD t.tx hmem] at hs
      cases hs
    have h2 : (s.apply_chargeback t).2
        = { s with
              accounts := mapInsert s.accounts t.client
                { acc with held := acc.held - q, locked := true }
              transaction_state := mapInsert s.transaction_state t.tx .chargebacked } := by
      rw [heq]
    rw [h2]
    refine ⟨?_, hamt, ?_, ?_, ⟨D, ?_, ?_⟩⟩
    · intro c a hca
      replace hca : mapInsert s.accounts t.client
          { acc with held := acc.held - q, locked := true } c = some a := hca
      by_cases hc : c = t.client
      · subst hc
        rw [mapInsert_same] at hca
        obtain rfl := Option.some.inj hca
        exact ⟨(haccN t.client acc hac).1, sub_nonneg.mpr hle⟩
      · rw [mapInsert_other _ _ _ _ hc] at hca
        exact haccN c a hca
    · intro i tr hi
      replace hi : s.transaction_history i = some tr := hi
      show mapInsert s.transaction_state t.tx TransactionState.chargebacked i ≠ none
      by_cases hit : i = t.tx
      · subst hit
        rw [mapInsert_same]
        simp
      · rw [mapInsert_other _ _ _ _ hit]
        exact hst i tr hi
    · intro i tr hi
      replace hi : s.transaction_history i = some tr := hi
      show mapInsert s.accounts t.client
          { acc with held := acc.held - q, locked := true } tr.client ≠ none
      exact mapInsert_ne_none _ _ _ _ (haccnt i tr hi)
    · intro i hi
      have hit : i ≠ t.tx := fun h => hi (h ▸ htD)
      show mapInsert s.transaction_state t.tx TransactionState.chargebacked i = none
      rw [mapInsert_other _ _ _ _ hit]
      exact hD i hi
    · intro c a hca
      replace hca : mapInsert s.accounts t.client
          { acc with held := acc.held - q, locked := true } c = some a := hca
      set s2 : State :=
        { s with
            accounts := mapInsert s.accounts t.client
              { acc with held := acc.held - q, locked := true }
            transaction_state := mapInsert s.transaction_state t.tx .chargebacked } with hs2
      have hsum : heldSum s2 D c
          = heldSum s D c + (heldContribution s2 c t.tx - heldContribution s c t.tx) :=
        heldSum_change s s2 D c t.tx htD (fun j hj =>
          heldContribution_eq_of_eq _ _ _ _
            (by rw [hs2]; exact mapInsert_other _ _ _ _ hj) (by rw [hs2]))
      have hnew : heldContribution s2 c t.tx = 0 := by
        rw [hs2]
        simp [heldContribution, mapInsert_same]
      rw [hsum, hnew]
      by_cases hc : c = t.client
      · subst hc
        rw [mapInsert_same] at hca
        obtain rfl := Option.some.inj hca
        have hold : heldContribution s t.client t.tx = q := by
          simp [heldContribution, hs, hh, hcl, hq]
        rw [hold]
        have := hcov t.client acc hac
        show heldSum s D t.client + (0 - q) ≤ acc.held - q
        linarith
      · rw [mapInsert_other _ _ _ _ hc] at hca
        have hcl' : ctx.client ≠ c := by
          rw [hcl]
          exact fun h => hc h.symm
        have hold : heldContribution s c t.tx = 0 := by
          simp [heldContribution, hs, hh, hcl']
        rw [hold]
        have := hcov c a hca
        linarith

/-- `apply_transaction` preserves the reachability invariant. -/
theorem inv_apply_transaction (s : State) (t : Transaction) (hinv : Inv s) :
    Inv (s.apply_transaction t).2 := by
  cases htpe : t.tpe <;> simp only [State.apply_transaction, htpe]
  · exact inv_apply_deposit s t hinv
  · exact inv_apply_withdrawal s t hinv
  · exact inv_apply_dispute s t hinv
  · exact inv_apply_resolve s t hinv
  · exact inv_apply_chargeback s t hinv

/-- The fresh state satisfies the invariant. -/
theorem inv_new : Inv State.new := by
  refine ⟨?_, ?_, ?_, ?_, ⟨∅, ?_, ?_⟩⟩
  · intro c a h
    cases h
  · intro i tr h
    cases h
  · intro i tr h
    cases h
  · intro i tr h
    cases h
  · intro i _
    rfl
  · intro c a h
    cases h

/-- Every state reachable from `State.new` satisfies the invariant. -/
theorem inv_applyAll (ts : List Transaction) (s : State) (hinv : Inv s) :
    Inv (State.applyAll s ts) := by
  induction ts generalizing s with
  | nil => exact hinv
  | cons t ts ih => exact ih _ (inv_apply_transaction s t hinv)

/-! ## C2: non-negative balances, and locked accounts are frozen -/

/-- No operation touches the account entry of a client other than its own. -/
theorem accounts_other_clients_unchanged (s : State) (t : Transaction) (c : ℕ)
    (hc : c ≠ t.client) :
    ((s.apply_transaction t).2).accounts c = s.accounts c := by
  cases htpe : t.tpe <;> simp only [State.apply_transaction, htpe]
  · rcases apply_deposit_cases s t with ⟨acc, e, _, heq⟩ | ⟨acc, q, _, _, _, _, heq⟩ <;>
      rw [heq] <;> exact mapInsert_other _ _ _ _ hc
  · rcases apply_withdrawal_cases s t with ⟨e, heq⟩ | ⟨acc, q, _, _, _, _, _, heq⟩ <;>
      rw [heq] <;> exact mapInsert_other _ _ _ _ hc
  · rcases apply_dispute_cases s t with ⟨e, heq⟩ | ⟨dtx, q, acc, _, _, _, _, _, _, _, heq⟩ <;>
      rw [heq] <;> exact mapInsert_other _ _ _ _ hc
  · rcases apply_resolve_cases s t with ⟨e, heq⟩ | ⟨rtx, q, acc, _, _, _, _, _, _, _, heq⟩ <;>
      rw [heq] <;> exact mapInsert_other _ _ _ _ hc
  · rcases apply_chargeback_cases s t with ⟨e, heq⟩ | ⟨ctx, q, acc, _, _, _, _, _, _, _, heq⟩ <;>
      rw [heq] <;> exact mapInsert_other _ _ _ _ hc

/-- A locked account entry is left exactly as it is by every transaction. -/
theorem locked_account_frozen_step (s : State) (t : Transaction) (c : ℕ) (a : Account)
    (ha : s.accounts c = some a) (hl : a.locked = true) :
    ((s.apply_transaction t).2).accounts c = some a := by
  by_cases hc : c = t.client
  · subst hc
    cases htpe : t.tpe <;> simp only [State.apply_transaction, htpe]
    · rcases apply_deposit_cases s t with ⟨acc, e, hacc, heq⟩ | ⟨acc, q, hacc, _, _, hlk, heq⟩
      · rw [ha] at hacc
        simp at hacc
        subst hacc
        rw [heq]
        exact mapInsert_same _ _ _
      · rw [ha] at hacc
        simp at hacc
        subst hacc
        rw [hl] at hlk
        cases hlk
    · rcases apply_withdrawal_cases s t with ⟨e, heq⟩ | ⟨acc, q, hacc, _, hlk, _, _, heq⟩
      · rw [heq]
        exact ha
      · rw [ha] at hacc
        obtain rfl := Option.some.inj hacc.symm
        rw [hl] at hlk
        cases hlk
    · rcases apply_dispute_cases s t
        with ⟨e, heq⟩ | ⟨dtx, q, acc, _, _, _, _, hac, hlk, _, heq⟩
      · rw [heq]
        exact ha
      · rw [ha] at hac
        obtain rfl := Option.some.inj hac.symm
        rw [hl] at hlk
        cases hlk
    · rcases apply_resolve_cases s t
        with ⟨e, heq⟩ | ⟨rtx, q, acc, _, _, _, _, hac, hlk, _, heq⟩
      · rw [heq]
        exact ha
      · rw [ha] at hac
        obtain rfl := Option.some.inj hac.symm
        rw [hl] at hlk
        cases hlk
    · rcases apply_chargeback_cases s t
        with ⟨e, heq⟩ | ⟨ctx, q, acc, _, _, _, _, hac, hlk, _, heq⟩
      · rw [heq]
        exact ha
      · rw [ha] at hac
        obtain rfl := Option.some.inj hac.symm
        rw [hl] at hlk
        cases hlk
  · rw [accounts_other_clients_unchanged s t c hc]
    exact ha

/-- A locked account entry survives any further list of transactions. -/
theorem locked_account_frozen (s : State) (ts : List Transaction) (c : ℕ) (a : Account)
    (ha : s.accounts c = some a) (hl : a.locked = true) :
    (State.applyAll s ts).accounts c = some a := by
  induction ts generalizing s with
  | nil => exact ha
  | cons t ts ih => exact ih _ (locked_account_frozen_step s t c a ha hl)

/-- C2: in every state reachable from a fresh `State`, every account has
`available ≥ 0` and `held ≥ 0`; and once an account is locked, its entry —
in particular `available` and `held` — never changes under any further
sequence of transactions. -/
theorem reachable_state_invariants (ts : List Transaction) (c : ℕ) (a : Account)
    (ha : (State.applyAll State.new ts).accounts c = some a) :
    (0 ≤ a.available ∧ 0 ≤ a.held) ∧
    (a.locked = true →
      ∀ ts2, (State.applyAll (State.applyAll State.new ts) ts2).accounts c = some a) := by
  have hinv := inv_applyAll ts State.new inv_new
  exact ⟨hinv.accNonneg c a ha, fun hl ts2 => locked_account_frozen _ ts2 c a ha hl⟩

/-- The account frozen by the example chargeback sequence. -/
def lockedAccount : Account := { available := 0, held := 0, locked := true }

/-- Witness for C2 at the example sequence: client 1's locked account has
non-negative balances and survives a further deposit attempt unchanged. -/
theorem reachable_state_invariants_witness :
    (0 ≤ lockedAccount.available ∧ 0 ≤ lockedAccount.held) ∧
    (State.applyAll (State.applyAll State.new exSeqC) [depTx]).accounts 1
      = some lockedAccount := by
  have h := reachable_state_invariants exSeqC 1 lockedAccount
    (by with_unfolding_all decide)
  exact ⟨h.1, h.2 rfl [depTx]⟩

/-! ## C9: integrity errors are unreachable -/

/-- Holds when the result is a success or a user-level transaction error —
i.e. anything but an `IntegrityError`. -/
def notIntegrity : Option CephalopodError → Prop
  | some (.integrityError _ _) => False
  | _ => True

/-- `apply_deposit` never produces an integrity error: the only `Account`
errors deposit can raise are `AccountLocked` and `NegativeAmount`, both
mapped to transaction errors. -/
theorem deposit_no_integrity (s : State) (t : Transaction) :
    notIntegrity (s.apply_deposit t).1 := by
  obtain ⟨acc, hacc⟩ : ∃ a, (s.accounts t.client).getD Account.new = a := ⟨_, rfl⟩
  rcases hq : t.amount with _ | q
  · simp [State.apply_deposit, hq, notIntegrity]
  by_cases hlk : acc.locked = true
  · have hd : acc.deposit q = .error .accountLocked := by simp [Account.deposit, hlk]
    simp [State.apply_deposit, hq, hacc, hd, depositErrMap, notIntegrity]
  by_cases hneg : q < 0
  · have hd : acc.deposit q = .error (.negativeAmount q) := by
      simp [Account.deposit, hlk, hneg]
    simp [State.apply_deposit, hq, hacc, hd, depositErrMap, notIntegrity]
  · have hd : acc.deposit q = .ok { acc with available := acc.available + q } := by
      simp [Account.deposit, hlk, hneg]
    simp [State.apply_deposit, hq, hacc, hd, notIntegrity]

/-- `apply_withdrawal` never produces an integrity error: all its failure
modes are user-level transaction errors. -/
theorem withdrawal_no_integrity (s : State) (t : Transaction) :
    notIntegrity (s.apply_withdrawal t).1 := by
  rcases ha : s.accounts t.client with _ | acc
  · simp [State.apply_withdrawal, ha, notIntegrity]
  rcases hq : t.amount with _ | q
  · simp [State.apply_withdrawal, ha, hq, notIntegrity]
  rcases hw : acc.withdraw q with e | acc2
  · cases e <;> simp [State.apply_withdrawal, ha, hq, hw, withdrawErrMap, notIntegrity]
  · simp [State.apply_withdrawal, ha, hq, hw, notIntegrity]

/-- Under the reachability invariant, `apply_dispute` never produces an
integrity error: the lifecycle entry, account and amount of a historical
transaction always exist, and `lock` maps its failures to transaction
errors. -/
theorem dispute_no_integrity (s : State) (t : Transaction) (hinv : Inv s) :
    notIntegrity (s.apply_dispute t).1 := by
  obtain ⟨haccN, hamt, hst, haccnt, D, hD, hcov⟩ := hinv
  rcases hh : s.transaction_history t.tx with _ | dtx
  · simp [State.apply_dispute, hh, notIntegrity]
  rcases hsx : s.transaction_state t.tx with _ | st
  · exact absurd hsx (hst t.tx dtx hh)
  by_cases h1 : st ≠ TransactionState.deposited
  · simp [State.apply_dispute, hh, hsx, h1, notIntegrity]
  have h1' : st = TransactionState.deposited := not_not.mp h1
  subst h1'
  by_cases h2 : t.client ≠ dtx.client
  · simp [State.apply_dispute, hh, hsx, h2, notIntegrity]
  have h2' : t.client = dtx.client := not_not.mp h2
  rcases hac : s.accounts t.client with _ | acc
  · exact absurd (h2' ▸ hac) (haccnt t.tx dtx hh)
  obtain ⟨q, hqa, hq0⟩ := hamt t.tx dtx hh
  rcases hl : acc.lock q with e | acc2
  · have : e = .accountLocked ∨ e = .notEnoughFunds acc.available q := by
      unfold Account.lock at hl
      by_cases hlk : acc.locked = true
      · rw [if_pos hlk] at hl
        exact Or.inl (Except.error.inj hl).symm
      · rw [if_neg hlk] at hl
        by_cases hav : acc.available < q
        · rw [if_pos hav] at hl
          exact Or.inr (Except.error.inj hl).symm
        · rw [if_neg hav] at hl
          cases hl
    rcases this with rfl | rfl <;>
      simp [State.apply_dispute, hh, hsx, h2, hac, hqa, hl, disputeErrMap, notIntegrity]
  · simp [State.apply_dispute, hh, hsx, h2, hac, hqa, hl, notIntegrity]

/-- Under the reachability invariant, `apply_resolve` never produces an
integrity error; in particular `FundsNotLocked` is unreachable because the
held balance always covers the amount of any currently disputed
transaction. -/
theorem resolve_no_integrity (s : State) (t : Transaction) (hinv : Inv s) :
    notIntegrity (s.apply_resolve t).1 := by
  obtain ⟨haccN, hamt, hst, haccnt, D, hD, hcov⟩ := hinv
  rcases hh : s.transaction_history t.tx with _ | rtx
  · simp [State.apply_resolve, hh, notIntegrity]
  rcases hsx : s.transaction_state t.tx with _ | st
  · exact absurd hsx (hst t.tx rtx hh)
  by_cases h1 : st ≠ TransactionState.disputed
  · simp [State.apply_resolve, hh, hsx, h1, notIntegrity]
  have h1' : st = TransactionState.disputed := not_not.mp h1
  subst h1'
  by_cases h2 : t.client ≠ rtx.client
  · simp [State.apply_resolve, hh, hsx, h2, notIntegrity]
  have h2' : t.client = rtx.client := not_not.mp h2
  rcases hac : s.accounts t.client with _ | acc
  · exact absurd (h2' ▸ hac) (haccnt t.tx rtx hh)
  obtain ⟨q, hqa, hq0⟩ := hamt t.tx rtx hh
  have htD : t.tx ∈ D := by
    by_contra hmem
    rw [hD t.tx hmem] at hsx
    cases hsx
  have hcontr : heldContribution s t.client t.tx = q := by
    simp [heldContribution, hsx, hh, h2'.symm, hqa]
  have hqheld : q ≤ acc.held := by
    rw [← hcontr]
    exact le_trans (heldContribution_le_heldSum s D t.client t.tx htD hamt)
      (hcov t.client acc hac)
  by_cases hlk : acc.locked = true
  · have hrel : acc.release q = .error .accountLocked := by simp [Account.release, hlk]
    simp [State.apply_resolve, hh, hsx, h2, hac, hqa, hrel, resolveErrMap, notIntegrity]
  · have hrel : acc.release q
        = .ok { acc with available := acc.available + q, held := acc.held - q } := by
      simp [Account.release, hlk, not_lt.mpr hqheld]
    simp [State.apply_resolve, hh, hsx, h2, hac, hqa, hrel, notIntegrity]

/-- Under the reachability invariant, `apply_chargeback` never produces an
integrity error, for the same reason as resolve. -/
theorem chargeback_no_integrity (s : State) (t : Transaction) (hinv : Inv s) :
    notIntegrity (s.apply_chargeback t).1 := by
  obtain ⟨haccN, hamt, hst, haccnt, D, hD, hcov⟩ := hinv
  rcases hh : s.transaction_history t.tx with _ | ctx
  · simp [State.apply_chargeback, hh, notIntegrity]
  rcases hsx : s.transaction_state t.tx with _ | st
  · exact absurd hsx (hst t.tx ctx hh)
  by_cases h1 : st ≠ TransactionState.disputed
  · simp [State.apply_chargeback, hh, hsx, h1, notIntegrity]
  have h1' : st = TransactionState.disputed := not_not.mp h1
  subst h1'
  by_cases h2 : t.client ≠ ctx.client
  · simp [State.apply_chargeback, hh, hsx, h2, notIntegrity]
  have h2' : t.client = ctx.client := not_not.mp h2
  rcases hac : s.accounts t.client with _ | acc
  · exact absurd (h2' ▸ hac) (haccnt t.tx ctx hh)
  obtain ⟨q, hqa, hq0⟩ := hamt t.tx ctx hh
  have htD : t.tx ∈ D := by
    by_contra hmem
    rw [hD t.tx hmem] at hsx
    cases hsx
  have hcontr : heldContribution s t.client t.tx = q := by
    simp [heldContribution, hsx, hh, h2'.symm, hqa]
  have hqheld : q ≤ acc.held := by
    rw [← hcontr]
    exact le_trans (heldContribution_le_heldSum s D t.client t.tx htD hamt)
      (hcov t.client acc hac)
  by_cases hlk : acc.locked = true
  · have hcb : acc.chargeback q = .error .accountLocked := by
      simp [Account.chargeback, hlk]
    simp [State.apply_chargeback, hh, hsx, h2, hac, hqa, hcb, chargebackErrMap, notIntegrity]
  · have hcb : acc.chargeback q
        = .ok { acc with held := acc.held - q, locked := true } := by
      simp [Account.chargeback, hlk, not_lt.mpr hqheld]
    simp [State.apply_chargeback, hh, hsx, h2, hac, hqa, hcb, notIntegrity]

/-- C9: starting from a fresh `State`, no `apply_transaction` call along any
sequence of well-typed transactions ever returns a
`CephalopodError::IntegrityError` — the `StateMissingForTransaction`,
`AmountMissingForTransaction`, `AccountMissingForTransaction`,
`FundsNotLocked` and `UnexpectedAccountError` branches are unreachable,
because every history entry has a lifecycle entry, an existing account and a
present non-negative amount, and held funds always cover every currently
disputed amount. -/
theorem integrity_errors_unreachable (ts : List Transaction) (t : Transaction) :
    notIntegrity ((State.applyAll State.new ts).apply_transaction t).1 := by
  have hinv := inv_applyAll ts State.new inv_new
  cases htpe : t.tpe <;> simp only [State.apply_transaction, htpe]
  · exact deposit_no_integrity _ t
  · exact withdrawal_no_integrity _ t
  · exact dispute_no_integrity _ t hinv
  · exact resolve_no_integrity _ t hinv
  · exact chargeback_no_integrity _ t hinv

/-! ## C6: full error characterization on a locked account -/

/-- On a locked account in an invariant (reachable) state, every operation
fails, preserves the account entry, and returns `AccountLocked` exactly when
its earlier validations pass; each failing earlier validation yields its own
transaction error. -/
theorem locked_error_spec (s : State) (t : Transaction) (a : Account)
    (hinv : Inv s) (ha : s.accounts t.client = some a) (hl : a.locked = true) :
    (s.apply_transaction t).1 ≠ none ∧
    (s.apply_transaction t).2.accounts t.client = some a ∧
    (∀ rtx, s.transaction_history t.tx = some rtx →
      ∃ st, s.transaction_state t.tx = some st) ∧
    ((t.tpe = .deposit ∨ t.tpe = .withdrawal) →
      (t.amount = none →
        (s.apply_transaction t).1 = some (.transactionError t .amountNotProvided)) ∧
      (∀ q, t.amount = some q →
        (s.apply_transaction t).1
          = some (.transactionError t (.accountLocked t.client)))) ∧
    (∀ st0, expectedPriorState t.tpe = some st0 →
      (s.transaction_history t.tx = none →
        (s.apply_transaction t).1
          = some (.transactionError t (.transactionNotFound t.tx))) ∧
      (∀ rtx st, s.transaction_history t.tx = some rtx →
        s.transaction_state t.tx = some st → st ≠ st0 →
        (s.apply_transaction t).1
          = some (.transactionError t (.transactionInvalidState st))) ∧
      (∀ rtx, s.transaction_history t.tx = some rtx →
        s.transaction_state t.tx = some st0 → rtx.client ≠ t.client →
        (s.apply_transaction t).1
          = some (.transactionError t (.transactionClientMismatch t.tx t.client))) ∧
      (∀ rtx, s.transaction_history t.tx = some rtx →
        s.transaction_state t.tx = some st0 → rtx.client = t.client →
        (s.apply_transaction t).1
          = some (.transactionError t (.accountLocked t.client)))) := by
  refine ⟨?_, locked_account_frozen_step s t t.client a ha hl, ?_, ?_, ?_⟩
  · cases htpe : t.tpe <;> simp only [State.apply_transaction, htpe]
    · rcases (apply_deposit_locked s t a ha hl).2.1 with h | h <;> simp [h]
    · rcases (apply_withdrawal_locked s t a ha hl).2.1 with h | h <;> simp [h]
    · exact (apply_dispute_locked s t a ha hl).1
    · exact (apply_resolve_locked s t a ha hl).1
    · exact (apply_chargeback_locked s t a ha hl).1
  · intro rtx hh
    rcases hsx : s.transaction_state t.tx with _ | st
    · exact absurd hsx (hinv.histState t.tx rtx hh)
    · exact ⟨st, rfl⟩
  · rintro (htpe | htpe) <;> refine ⟨?_, ?_⟩
    · intro hq
      simp only [State.apply_transaction, htpe]
      simp [State.apply_deposit, hq]
    · intro q hq
      simp only [State.apply_transaction, htpe]
      exact (apply_deposit_locked s t a ha hl).2.2 q hq
    · intro hq
      simp only [State.apply_transaction, htpe]
      simp [State.apply_withdrawal, ha, hq]
    · intro q hq
      simp only [State.apply_transaction, htpe]
      exact (apply_withdrawal_locked s t a ha hl).2.2 q hq
  · intro st0 hst0
    cases htpe : t.tpe with
    | deposit => simp [expectedPriorState, htpe] at hst0
    | withdrawal => simp [expectedPriorState, htpe] at hst0
    | dispute =>
        simp only [expectedPriorState, htpe, Option.some.injEq] at hst0
        subst hst0
        refine ⟨?_, ?_, ?_, ?_⟩
        · intro hhnone
          simp only [State.apply_transaction, htpe]
          simp [State.apply_dispute, hhnone]
        · intro rtx st hh hs hne
          simp only [State.apply_transaction, htpe]
          simp [State.apply_dispute, hh, hs, hne]
        · intro rtx hh hs hc
          have hc' : t.client ≠ rtx.client := fun h => hc h.symm
          simp only [State.apply_transaction, htpe]
          simp [State.apply_dispute, hh, hs, hc']
        · intro rtx hh hs hcl
          obtain ⟨q, hqa, hq0⟩ := hinv.histAmount t.tx rtx hh
          have hlock : a.lock q = .error .accountLocked := by simp [Account.lock, hl]
          simp only [State.apply_transaction, htpe]
          simp [State.apply_dispute, hh, hs, hcl, ha, hqa, hlock, disputeErrMap]
    | resolve =>
        simp only [expectedPriorState, htpe, Option.some.injEq] at hst0
        subst hst0
        refine ⟨?_, ?_, ?_, ?_⟩
        · intro hhnone
          simp only [State.apply_transaction, htpe]
          simp [State.apply_resolve, hhnone]
        · intro rtx st hh hs hne
          simp only [State.apply_transaction, htpe]
          simp [State.apply_resolve, hh, hs, hne]
        · intro rtx hh hs hc
          have hc' : t.client ≠ rtx.client := fun h => hc h.symm
          simp only [State.apply_transaction, htpe]
          simp [State.apply_resolve, hh, hs, hc']
        · intro rtx hh hs hcl
          obtain ⟨q, hqa, hq0⟩ := hinv.histAmount t.tx rtx hh
          have hrel : a.release q = .error .accountLocked := by simp [Account.release, hl]
          simp only [State.apply_transaction, htpe]
          simp [State.apply_resolve, hh, hs, hcl, ha, hqa, hrel, resolveErrMap]
    | chargeback =>
        simp only [expectedPriorState, htpe, Option.some.injEq] at hst0
        subst hst0
        refine ⟨?_, ?_, ?_, ?_⟩
        · intro hhnone
          simp only [State.apply_transaction, htpe]
          simp [State.apply_chargeback, hhnone]
        · intro rtx st hh hs hne
          simp only [State.apply_transaction, htpe]
          simp [State.apply_chargeback, hh, hs, hne]
        · intro rtx hh hs hc
          have hc' : t.client ≠ rtx.client := fun h => hc h.symm
          simp only [State.apply_transaction, htpe]
          simp [State.apply_chargeback, hh, hs, hc']
        · intro rtx hh hs hcl
          obtain ⟨q, hqa, hq0⟩ := hinv.histAmount t.tx rtx hh
          have hcb : a.chargeback q = .error .accountLocked := by
            simp [Account.chargeback, hl]
          simp only [State.apply_transaction, htpe]
          simp [State.apply_chargeback, hh, hs, hcl, ha, hqa, hcb, chargebackErrMap]

/-- C6, amended: in every state reachable from a fresh `State` in which a
client's account is locked, every subsequent Deposit, Withdrawal, Dispute,
Resolve or Chargeback targeting that account fails and leaves the account
entry — in particular `available` and `held` — unchanged.  The error is
`AccountLocked` exactly when the operation's earlier validations pass (a
present amount for Deposit/Withdrawal; an existing referenced transaction in
the expected lifecycle state with matching client for the dispute-workflow
operations — in a reachable state a history entry always has a lifecycle
entry, making these cases exhaustive), and each failing earlier validation
instead yields its own `TransactionError`: `AmountNotProvided`,
`TransactionNotFound`, `TransactionInvalidState` or
`TransactionClientMismatch`. -/
theorem locked_account_rejects_everything (ts : List Transaction) (s : State)
    (t : Transaction) (a : Account)
    (hreach : State.applyAll State.new ts = s)
    (ha : s.accounts t.client = some a)
    (hl : a.locked = true) :
    (s.apply_transaction t).1 ≠ none ∧
    (s.apply_transaction t).2.accounts t.client = some a ∧
    (∀ rtx, s.transaction_history t.tx = some rtx →
      ∃ st, s.transaction_state t.tx = some st) ∧
    ((t.tpe = .deposit ∨ t.tpe = .withdrawal) →
      (t.amount = none →
        (s.apply_transaction t).1 = some (.transactionError t .amountNotProvided)) ∧
      (∀ q, t.amount = some q →
        (s.apply_transaction t).1
          = some (.transactionError t (.accountLocked t.client)))) ∧
    (∀ st0, expectedPriorState t.tpe = some st0 →
      (s.transaction_history t.tx = none →
        (s.apply_transaction t).1
          = some (.transactionError t (.transactionNotFound t.tx))) ∧
      (∀ rtx st, s.transaction_history t.tx = some rtx →
        s.transaction_state t.tx = some st → st ≠ st0 →
        (s.apply_transaction t).1
          = some (.transactionError t (.transactionInvalidState st))) ∧
      (∀ rtx, s.transaction_history t.tx = some rtx →
        s.transaction_state t.tx = some st0 → rtx.client ≠ t.client →
        (s.apply_transaction t).1
          = some (.transactionError t (.transactionClientMismatch t.tx t.client))) ∧
      (∀ rtx, s.transaction_history t.tx = some rtx →
        s.transaction_state t.tx = some st0 → rtx.client = t.client →
        (s.apply_transaction t).1
          = some (.transactionError t (.accountLocked t.client)))) := by
  subst hreach
  exact locked_error_spec _ t a (inv_applyAll ts State.new inv_new) ha hl

/-- Witness for C6's amended theorem: in the locked example state, a deposit
with a present amount fails with `AccountLocked` and leaves the account
entry unchanged, while re-disputing the charged-back transaction 1 fails
with `TransactionInvalidState Chargebacked`. -/
theorem locked_account_rejects_everything_witness :
    (lockedState.apply_transaction depTx).1
      = some (.transactionError depTx (.accountLocked 1)) ∧
    (lockedState.apply_transaction depTx).2.accounts 1
      = some { available := 0, held := 0, locked := true } ∧
    (lockedState.apply_transaction postDispute).1
      = some (.transactionError postDispute
          (.transactionInvalidState .chargebacked)) := by
  have hd := locked_account_rejects_everything exSeqC lockedState depTx
      { available := 0, held := 0, locked := true } rfl
      (by with_unfolding_all decide) rfl
  have hp := locked_account_rejects_everything exSeqC lockedState postDispute
      { available := 0, held := 0, locked := true } rfl
      (by with_unfolding_all decide) rfl
  refine ⟨(hd.2.2.2.1 (Or.inl rfl)).2 10 rfl, hd.2.1, ?_⟩
  exact (hp.2.2.2.2 .deposited rfl).2.1
    { tpe := .deposit, client := 1, tx := 1, amount := some 100 } .chargebacked
    (by with_unfolding_all decide) (by with_unfolding_all decide) (by decide)

end Cephalopod
